import Mathlib

/-!
Verification of the pdf2audiobook annotation tool (Google Apps Script,
`apps-script/do_get.gs` and `apps-script/do_get.js`) against its
natural-language specification.

The script is a shallow embedding of the source:
* spreadsheet cell values are `Val` (a JS value reaching a sheet cell is
  either a string or a number; CSV ingestion coerces integer-looking
  strings to numbers, as Google Sheets does);
* a `Sheet` is its name, its cell grid and the list of background marks;
  the sheet store of a spreadsheet is a `List Sheet`;
* fallible JS code (property access on `undefined`/`null`, platform range
  errors) is modelled with `Except String`;
* the batch-download loop of `downloadLabels`, which has no structural
  bound in the source (`for (var i = 1; true; i += 100)`), is modelled
  with explicit fuel, returning the list of requested URLs together with
  `none` when the fuel runs out before the loop breaks;
* `Array.prototype.sort` (stable in the V8 runtime used by Apps Script)
  is modelled by the stable sort `jsSort`, which inserts each element
  after all weakly-preceding ones.
-/

namespace P2A

/-- A spreadsheet cell value: a string or an integer number.  The source
stores CSV text into sheets and reads it back; integer-looking strings
are coerced to numbers by the platform on write. -/
inductive Val where
  | s : String → Val
  | n : Int → Val
deriving DecidableEq, Repr

/-- Text rendering of a cell value, as JS string coercion produces it. -/
def cellText : Val → String
  | .s t => t
  | .n k => toString k

/-- Numeric value of a digit string (the JS `Number(...)` coercion,
restricted to the nonnegative-integer strings that occur in this data;
any other string coerces to NaN, i.e. `none`). -/
def strNumInt? (t : String) : Option Int :=
  if t ≠ "" ∧ t.data.all Char.isDigit then
    some (t.data.foldl (fun a c => a * 10 + (c.toNat - 48)) 0)
  else none

/-- The JS `<` comparison between two possibly-undefined cell values
(`none` is `undefined`; comparisons against NaN are false). -/
def jsLtV : Option Val → Option Val → Bool
  | some (.n x), some (.n y) => x < y
  | some (.s x), some (.s y) => decide (x < y)
  | some (.n x), some (.s y) =>
    match strNumInt? y with
    | some m => x < m
    | none => false
  | some (.s x), some (.n y) =>
    match strNumInt? x with
    | some m => m < y
    | none => false
  | _, _ => false

/-- The JS `==` comparison between two possibly-undefined cell values. -/
def jsEqV : Option Val → Option Val → Bool
  | none, none => true
  | some (.n x), some (.n y) => x = y
  | some (.s x), some (.s y) => x = y
  | some (.n x), some (.s y) =>
    match strNumInt? y with
    | some m => x = m
    | none => false
  | some (.s x), some (.n y) =>
    match strNumInt? x with
    | some m => m = y
    | none => false
  | _, _ => false

/-- A `LabeledRecord`: a JS object built by assigning
`features[headerList[i]] = row[i]` for each column, i.e. an association
list in key-insertion order with overwrite-on-reassignment. -/
abbrev Record := List (String × Val)

/-- JS object property read. -/
def rlookup (r : Record) (k : String) : Option Val :=
  (r.find? (fun e => e.1 = k)).map (·.2)

/-- JS object property assignment: overwrite an existing key in place,
otherwise append the new key. -/
def rset (r : Record) (k : String) (v : Val) : Record :=
  if (r.find? (fun e => e.1 = k)).isSome then
    r.map (fun e => if e.1 = k then (k, v) else e)
  else r ++ [(k, v)]

/-- Build the `features` object of `buildParaDictFromSheet`: zip the
header names against the row values and assign each pair in order. -/
def mkRecord (names : List String) (row : List Val) : Record :=
  (List.zip names row).foldl (fun r e => rset r e.1 e.2) []

/-- Match the tail part `([0-9]+)-([0-9]+)` of the id regex at the start
of `l` (trailing characters are unconstrained, as the regex is not
anchored).  The first digit group is necessarily the maximal digit run:
a shorter run would be followed by a digit, not by `-`. -/
def matchTail (l : List Char) : Option (String × String) :=
  let d1 := l.takeWhile Char.isDigit
  if d1.isEmpty then none else
    match l.drop d1.length with
    | '-' :: r2 =>
      let d2 := r2.takeWhile Char.isDigit
      if d2.isEmpty then none else some (d1.asString, d2.asString)
    | _ => none

/-- The JS regex match `s.match(/(.*)-([0-9]+)-([0-9]+)/)`: the greedy
`(.*)` takes the longest prefix whose remainder still matches
`-([0-9]+)-([0-9]+)`.  Returns `(m[1], m[2], m[3])`:
document name, page number, paragraph number. -/
def parseId (s : String) : Option (String × String × String) :=
  let l := s.data
  let ks := (List.range l.length).filter
    (fun k => l.get? k == some '-' && (matchTail (l.drop (k + 1))).isSome)
  match ks.max? with
  | none => none
  | some k =>
    match matchTail (l.drop (k + 1)) with
    | some (p, q) => some ((l.take k).asString, p, q)
    | none => none

/-- Page number of a record, when its `id` field is a string matching
the id pattern. -/
def idPage (r : Record) : Option String :=
  match rlookup r "id" with
  | some (.s s) => (parseId s).map (fun x => x.2.1)
  | _ => none

/-- The comparator passed to `Array.sort` in `buildParaDictFromSheet`:
`a.area < b.area ? 1 : (a.area == b.area ? 0 : -1)` (descending by
`area`). -/
def jsCmpArea (a b : Record) : Int :=
  if jsLtV (rlookup a "area") (rlookup b "area") then 1
  else if jsEqV (rlookup a "area") (rlookup b "area") then 0
  else -1

/-- The weak-precedence relation induced by the comparator: `a` may sit
(weakly) before `b` exactly when the comparator does not force `a`
after `b`. -/
def recLe (a b : Record) : Bool := jsCmpArea a b ≤ 0

/-- Insert `x` into `acc` after every element that weakly precedes it;
the building block of the stable-sort model. -/
def insertLast (le : α → α → Bool) : List α → α → List α
  | [], x => [x]
  | y :: t, x => if le y x then y :: insertLast le t x else x :: y :: t

/-- Model of `Array.prototype.sort` with comparator-induced relation
`le`: a stable sort (V8's sort is stable), realised by inserting each
element in turn after all weakly-preceding ones. -/
def jsSort (le : α → α → Bool) (l : List α) : List α :=
  l.foldl (insertLast le) []

/-- One sheet of the spreadsheet: its name, its cell grid, and the cell
background marks set so far (row, column, colour; 1-based). -/
structure Sheet where
  name : String
  cells : List (List Val)
  bgs : List (Nat × Nat × String)
deriving DecidableEq, Repr

/-- The sheet store of the spreadsheet. -/
abbrev Store := List Sheet

/-- `getSheetByName`: the first sheet with the given name, or `none`. -/
def getSheetByName (store : Store) (name : String) : Option Sheet :=
  store.find? (fun sh => sh.name = name)

/-- Width of a sheet (`getLastColumn`): the longest content extent of
any row. -/
def sheetWidth (sh : Sheet) : Nat :=
  (sh.cells.map List.length).foldr max 0

/-- Pad (or cut) a row to the requested width, as `getValues` returns
exactly the requested rectangle, blank-filling missing cells. -/
def padRow (w : Nat) (row : List Val) : List Val :=
  row.take w ++ List.replicate (w - row.length) (Val.s "")

/-- `getHeaderList`: the values of row 1, over the full sheet width. -/
def headerListOf (sh : Sheet) : List Val :=
  padRow (sheetWidth sh) (sh.cells.headD [])

/-- State threaded through the `vals.forEach` loop of
`buildParaDictFromSheet`: the paragraph dictionary under construction
and the two informational counters. -/
structure BState where
  dict : List (String × List Record)
  pageCount : Nat
  paraCount : Nat
deriving DecidableEq, Repr

/-- JS object property read on the paragraph dictionary. -/
def jsGet (d : List (String × α)) (k : String) : Option α :=
  (d.find? (fun e => e.1 = k)).map (·.2)

/-- Overwrite the value stored at an existing key of the paragraph
dictionary. -/
def jsSet (d : List (String × α)) (k : String) (v : α) : List (String × α) :=
  d.map (fun e => if e.1 = k then (k, v) else e)

/-- The body of the `vals.forEach` callback: parse the record's id;
silently skip on no match; on a match ensure the page bucket exists,
push the record and re-sort the bucket by descending area.  Property
access `.match` on an `undefined` or numeric id throws. -/
def processRec (st : BState) (features : Record) : Except String BState :=
  match rlookup features "id" with
  | none => .error "TypeError: Cannot read properties of undefined (reading match)"
  | some (.n _) => .error "TypeError: features.id.match is not a function"
  | some (.s s) =>
    match parseId s with
    | none => .ok st
    | some x =>
      let page := x.2.1
      let d0 := if (jsGet st.dict page).isSome then st.dict
                else st.dict ++ [(page, [])]
      let pc := if (jsGet st.dict page).isSome then st.pageCount
                else st.pageCount + 1
      let bucket := (jsGet d0 page).getD []
      .ok ⟨jsSet d0 page (jsSort recLe (bucket ++ [features])), pc, st.paraCount + 1⟩

/-- Run the `forEach` loop over all rows, propagating the first thrown
error. -/
def processAll : BState → List Record → Except String BState
  | st, [] => .ok st
  | st, r :: rs =>
    match processRec st r with
    | .error e => .error e
    | .ok st' => processAll st' rs

/-- `buildParaDictFromSheet`: read the sheet named after the document
id, zip every data row against the header into a record, and aggregate
the records into the page-keyed dictionary.  The source reads
`getRange(2, 1, getLastRow(), getLastColumn())`, i.e. one row past the
data; that extra row comes back blank and is skipped by the id match.
Returns the dictionary with the two informational counters. -/
def buildParaDictFromSheet (pdfId : String) (store : Store) :
    Except String (List (String × List Record) × Nat × Nat) :=
  match getSheetByName store pdfId with
  | none => .error "TypeError: Cannot read properties of null (reading getRange)"
  | some sh =>
    let w := sheetWidth sh
    if sh.cells.isEmpty || w == 0 then
      .error "Exception: The number of rows or columns in the range must be at least 1."
    else
      let names := (headerListOf sh).map cellText
      let vals := (sh.cells.drop 1).map (padRow w) ++ [List.replicate w (Val.s "")]
      (processAll ⟨[], 0, 0⟩ (vals.map (mkRecord names))).map
        (fun st => (st.dict, st.pageCount, st.paraCount))

/-- Decimal digit emission with structural fuel (any fuel above the
argument yields the digits; see `decCharsAux_irrel`). -/
def decCharsAux : Nat → Nat → List Char
  | 0, _ => []
  | fuel + 1, n =>
    if n < 10 then [Nat.digitChar n]
    else decCharsAux fuel (n / 10) ++ [Nat.digitChar (n % 10)]

/-- Decimal rendering of a nonnegative JS number (integers below 2^53
print in plain decimal). -/
def decChars (n : Nat) : List Char := decCharsAux (n + 1) n

/-- The three-character batch suffix `('000' + i).slice(-3)`: the last
three characters of `"000"` followed by the decimal rendering of `i`. -/
def suffix3 (i : Nat) : String :=
  let l := '0' :: '0' :: '0' :: decChars i
  (l.drop (l.length - 3)).asString

/-- Three-digit zero padding (specification-side view of the batch
suffix). -/
def pad3 (n : Nat) : String :=
  [Nat.digitChar (n / 100 % 10), Nat.digitChar (n / 10 % 10), Nat.digitChar (n % 10)].asString

/-- The feature and label CSV URLs requested for loop counter `i`:
`<bucket><id>-<suffix>-features.csv` and `<bucket><id>-<suffix>-labels.csv`. -/
def batchUrls (pdfId bucketUrl : String) (i : Nat) : String × String :=
  let batchId := pdfId ++ "-" ++ suffix3 i
  (bucketUrl ++ batchId ++ "-features.csv", bucketUrl ++ batchId ++ "-labels.csv")

/-- The batch-download loop of `downloadLabels` (`do_get.gs`): for
`i = 1, 101, 201, ...` fetch the features and labels files; append the
labels body when it answers 200, else the features body when that
answers 200, else break.  Returns the requested URLs in order together
with the accumulated CSV text, or `none` in place of the text when the
fuel runs out before the loop breaks. -/
def dlLoop (pdfId bucketUrl : String) (fetch : String → Nat × String) :
    Nat → Nat → List String × Option String
  | 0, _ => ([], none)
  | fuel + 1, i =>
    let u := batchUrls pdfId bucketUrl i
    let respFeature := fetch u.1
    let respLabel := fetch u.2
    if respLabel.1 = 200 then
      let r := dlLoop pdfId bucketUrl fetch fuel (i + 100)
      (u.1 :: u.2 :: r.1, r.2.map (fun s => respLabel.2 ++ s))
    else if respFeature.1 = 200 then
      let r := dlLoop pdfId bucketUrl fetch fuel (i + 100)
      (u.1 :: u.2 :: r.1, r.2.map (fun s => respFeature.2 ++ s))
    else ([u.1, u.2], some "")

/-- Split a character list at every occurrence of a separator. -/
def splitOnChar (sep : Char) : List Char → List (List Char)
  | [] => [[]]
  | c :: rest =>
    let r := splitOnChar sep rest
    if c = sep then [] :: r
    else (c :: r.headD []) :: r.tail

/-- Modelled from the spec: `Utilities.parseCsv` is platform code absent
from this repository; per the specification it parses the concatenated
text into an ordered sequence of rows and yields an empty row sequence
for empty input.  Modelled as newline-separated rows of comma-separated
cells, ignoring blank lines. -/
def parseCsv (t : String) : List (List String) :=
  (((splitOnChar '\n' t.data).map List.asString).filter (fun line => line ≠ "")).map
    (fun line => (splitOnChar ',' line.data).map List.asString)

deriving instance DecidableEq for Except

/-- The synthesized default label of the reconciliation step: `"body"`
when the text field (column index 1) is longer than 100 characters,
else `"other"`. -/
def synthLabel (x : List String) : String :=
  if 100 < (x.getD 1 "").length then "body" else "other"

/-- Append the synthesized label to one row (`x.push(...)`); reading
`x[1]` of a row without a column index 1 throws. -/
def pushLabel (x : List String) : Except String (List String) :=
  match x.get? 1 with
  | none => .error "TypeError: Cannot read properties of undefined (reading length)"
  | some _ => .ok (x ++ [synthLabel x])

/-- The label-reconciliation step of `downloadLabels` (`do_get.gs`): if
the header row has no `label` column, push a synthesized label onto
every row and overwrite the last header cell with `"label"`; otherwise
leave the rows unchanged.  Reading `labelData[0]` of an empty row
sequence throws. -/
def reconcile (labelData : List (List String)) : Except String (List (List String)) :=
  match labelData with
  | [] => .error "TypeError: Cannot read properties of undefined (reading includes)"
  | h :: t =>
    if h.contains "label" then .ok (h :: t)
    else
      match pushLabel h, t.mapM pushLabel with
      | .ok h', .ok t' => .ok ((h'.dropLast ++ ["label"]) :: t')
      | .error e, _ => .error e
      | _, .error e => .error e

/-- Sheets auto-coerce integer-looking CSV text to numbers on write;
other text is stored verbatim. -/
def cellOfCsv (s : String) : Val :=
  match strNumInt? s with
  | some k => .n k
  | none => .s s

/-- Replace the first sheet with the given name using `f`. -/
def replaceFirst (store : Store) (name : String) (f : Sheet → Sheet) : Store :=
  match store with
  | [] => []
  | sh :: rest =>
    if sh.name = name then f sh :: rest else sh :: replaceFirst rest name f

/-- Every row of the parsed CSV must be as wide as the header row, or
the bulk `setValues` call rejects the rectangle. -/
def rectB (d : List (List String)) : Bool :=
  d.all (fun row => row.length == (d.headD []).length)

/-- `downloadLabels` (`do_get.gs`): download the batch CSVs, parse,
reconcile the label column, rename any existing sheet named `<id>` to
`<id>.old.<timestamp>`, and append a fresh sheet named `<id>` filled
with the reconciled rows from row 1, column 1.  `ts` is the locale time
string of the archival moment. -/
def downloadLabelsGs (pdfId bucketUrl : String) (fetch : String → Nat × String)
    (fuel : Nat) (ts : String) (store : Store) : Except String Store :=
  match (dlLoop pdfId bucketUrl fetch fuel 1).2 with
  | none => .error "Exception: Exceeded maximum execution time"
  | some csv =>
    match reconcile (parseCsv csv) with
    | .error e => .error e
    | .ok d =>
      let store1 :=
        match getSheetByName store pdfId with
        | some _ => replaceFirst store pdfId
            (fun sh => { sh with name := sh.name ++ ".old." ++ ts })
        | none => store
      if rectB d then
        .ok (store1 ++ [⟨pdfId, d.map (fun row => row.map cellOfCsv), []⟩])
      else .error "Exception: The number of columns in the data does not match."

/-- Substring containment on character lists (the partial matching that
`createTextFinder` performs by default). -/
def containsSub (hay needle : List Char) : Bool :=
  (List.range (hay.length + 1)).any (fun k => needle.isPrefixOf (hay.drop k))

/-- First matching cell of one row, 1-based column. -/
def rowHit (q : String) (row : List Val) : Option Nat :=
  (row.findIdx? (fun v => containsSub (cellText v).data q.data)).map (· + 1)

/-- Scan rows top to bottom for the first match. -/
def findCellAux (q : String) : Nat → List (List Val) → Option (Nat × Nat)
  | _, [] => none
  | i, row :: rest =>
    match rowHit q row with
    | some c => some (i, c)
    | none => findCellAux q (i + 1) rest

/-- `createTextFinder(id).findNext()`: the first cell, scanning rows top
to bottom and cells left to right, whose text contains the query as a
substring (TextFinder's default is partial, not entire-cell, matching;
the ids in this data are case-distinct, so default case folding is
immaterial and the model compares exactly). -/
def findCell (sh : Sheet) (q : String) : Option (Nat × Nat) :=
  findCellAux q 1 sh.cells

/-- JS `Array.prototype.indexOf` over header values with strict
equality: the 0-based position, or -1. -/
def jsIndexOfVal : List Val → Val → Int
  | [], _ => -1
  | x :: xs, v =>
    if x = v then 0
    else
      let r := jsIndexOfVal xs v
      if r < 0 then -1 else r + 1

/-- Overwrite one cell (1-based row and column) of a grid. -/
def setCell (cells : List (List Val)) (r c : Nat) (v : Val) : List (List Val) :=
  cells.set (r - 1) ((cells.getD (r - 1) []).set (c - 1) v)

/-- Read one cell (1-based) of a sheet, blank when out of range. -/
def cellAt (sh : Sheet) (r c : Nat) : Val :=
  ((sh.cells.getD (r - 1) []).getD (c - 1) (Val.s ""))

/-- `updateLabel(id, label)`: find the first cell whose text contains
`id`, take its row, look the `label` column up in the header, overwrite
that cell with the new label and mark its background `wheat`.  A missing
sheet, a missing match (null `findNext`) or a missing `label` column
throws. -/
def updateLabel (pdfId : String) (store : Store) (id label : String) :
    Except String Store :=
  match getSheetByName store pdfId with
  | none => .error "TypeError: Cannot read properties of null (reading createTextFinder)"
  | some sh =>
    match findCell sh id with
    | none => .error "TypeError: Cannot read properties of null (reading getRow)"
    | some (idRow, _) =>
      let labelColumn := jsIndexOfVal (headerListOf sh) (Val.s "label") + 1
      if labelColumn ≤ 0 then
        .error "Exception: The starting column of the range is too small."
      else
        .ok (replaceFirst store pdfId (fun s =>
          { s with
            cells := setCell s.cells idRow labelColumn.toNat (Val.s label),
            bgs := s.bgs ++ [(idRow, labelColumn.toNat, "wheat")] }))

/-- Escape a string for JSON output. -/
def jsonEscape (s : String) : String :=
  String.join (s.data.map (fun c =>
    if c = '"' then "\\\"" else if c = '\\' then "\\\\" else c.toString))

/-- JSON rendering of a cell value. -/
def jsonVal : Val → String
  | .n k => toString k
  | .s t => "\"" ++ jsonEscape t ++ "\""

/-- Comma-join. -/
def commaSep : List String → String
  | [] => ""
  | [x] => x
  | x :: xs => x ++ "," ++ commaSep xs

/-- JSON rendering of a record (keys in insertion order, as
`JSON.stringify` enumerates the non-index keys of a JS object). -/
def jsonRecord (r : Record) : String :=
  "\x7b" ++ commaSep (r.map (fun e => "\"" ++ jsonEscape e.1 ++ "\":" ++ jsonVal e.2)) ++ "\x7d"

/-- Canonical array-index reading of a dictionary key: JS enumerates
integer-like keys (no leading zeros) numerically first. -/
def canonicalIndex (s : String) : Option Nat :=
  if s ≠ "" ∧ s.data.all Char.isDigit ∧ (s = "0" ∨ s.data.headD '0' ≠ '0') then
    some (s.data.foldl (fun a c => a * 10 + (c.toNat - 48)) 0)
  else none

/-- `JSON.stringify` of the paragraph dictionary: integer-like page
keys ascending first, then the remaining keys in insertion order, each
page mapped to the JSON array of its records. -/
def jsStringify (d : List (String × List Record)) : String :=
  let numeric := d.filter (fun e => (canonicalIndex e.1).isSome)
  let others := d.filter (fun e => (canonicalIndex e.1).isNone)
  let sorted := jsSort
    (fun a b => (canonicalIndex a.1).getD 0 ≤ (canonicalIndex b.1).getD 0) numeric
  "\x7b" ++ commaSep ((sorted ++ others).map (fun e =>
    "\"" ++ jsonEscape e.1 ++ "\":[" ++ commaSep (e.2.map jsonRecord) ++ "]")) ++ "\x7d"

/-- `getParaDict`: `null` when no sheet exists for the document id, else
the JSON encoding of the built paragraph dictionary. -/
def getParaDict (pdfId : String) (store : Store) : Except String (Option String) :=
  match getSheetByName store pdfId with
  | none => .ok none
  | some _ =>
    (buildParaDictFromSheet pdfId store).map (fun x => some (jsStringify x.1))


/-! ### The comparator on records with numeric areas -/
/-- The numeric value of a record's `area` field (0 when absent or
non-numeric; only used under a `numArea` hypothesis). -/
def areaInt (r : Record) : Int :=
  match rlookup r "area" with
  | some (.n k) => k
  | _ => 0

/-- The record carries a numeric `area` field. -/
def numArea (r : Record) : Prop :=
  ∃ k : Int, rlookup r "area" = some (Val.n k)

/-- Encounter-tagged records of one page, compared by descending area
first and by encounter index on ties: the specification's ordering
"descending by `area`, ties keep encounter order". -/
def lexLe (p q : Nat × Record) : Bool :=
  decide (areaInt q.2 < areaInt p.2) ||
    (decide (areaInt p.2 = areaInt q.2) && decide (p.1 ≤ q.1))

/-- Tag a list with consecutive indices starting at `k`. -/
def tagFrom (k : Nat) : List α → List (Nat × α)
  | [] => []
  | x :: xs => (k, x) :: tagFrom (k + 1) xs

/-- The encounter-ordered, index-tagged records of one page among a
record sequence. -/
def taggedPageRecs (recs : List Record) (pg : String) : List (Nat × Record) :=
  (tagFrom 0 recs).filter (fun q => decide (idPage q.2 = some pg))

/-- What one page bucket must hold after processing `recs`: nothing if
the page never occurred, else its tagged records sorted by descending
area with ties in encounter order. -/
def bucketSpec (recs : List Record) (pg : String) : Option (List Record) :=
  let l := taggedPageRecs recs pg
  if l.isEmpty then none else some ((jsSort lexLe l).map Prod.snd)

/-- Number of records whose id matches the pattern. -/
def countMatched (l : List Record) : Nat :=
  (l.filter (fun r => (idPage r).isSome)).length

/-- The loop invariant of `buildParaDictFromSheet` for sheets with
numeric areas: every bucket holds exactly the specification's value and
the paragraph counter counts the pattern-matching records. -/
def InvD (processed : List Record) (st : BState) : Prop :=
  (∀ pg, jsGet st.dict pg = bucketSpec processed pg) ∧
  st.paraCount = countMatched processed

/-- Column names of a sheet: the text of each header cell (JS object
keys are strings). -/
def sheetNames (sh : Sheet) : List String := (headerListOf sh).map cellText

/-- The records `buildParaDictFromSheet` builds from the data rows of a
sheet (without the blank overshoot row). -/
def sheetRecs (sh : Sheet) : List Record :=
  ((sh.cells.drop 1).map (padRow (sheetWidth sh))).map (mkRecord (sheetNames sh))

/-! ### Claim C1 -/
/-- The record's `id` field is a string matching the id pattern
(executable form of well-formedness). -/
def wellFormedRec (r : Record) : Bool :=
  match rlookup r "id" with
  | some (.s s) => (parseId s).isSome
  | _ => false

/-- The record's `area` field is numeric (executable form). -/
def numAreaB (r : Record) : Bool :=
  match rlookup r "area" with
  | some (.n _) => true
  | _ => false

/-- The specification's C1 example sheet: records `doc-3-1` (area 50),
`doc-3-2` (area 200), `doc-4-1` (area 10). -/
def c1Sheet : Sheet :=
  ⟨"abcd",
    [[Val.s "id", Val.s "text", Val.s "area"],
     [Val.s "doc-3-1", Val.s "t1", Val.n 50],
     [Val.s "doc-3-2", Val.s "t2", Val.n 200],
     [Val.s "doc-4-1", Val.s "t3", Val.n 10]], []⟩

/-! ### Claim C7 -/
/-- The record's `id` field is present and is a string (executable). -/
def idIsString (r : Record) : Bool :=
  match rlookup r "id" with
  | some (.s _) => true
  | _ => false

/-- Membership invariant of the build loop: every record sitting in a
page bucket has an id matching the pattern, with that very page. -/
def InvM (st : BState) : Prop :=
  ∀ pg l, jsGet st.dict pg = some l → ∀ r ∈ l, idPage r = some pg

/-- The C7 example sheet: one malformed id `malformed_id` next to a
well-formed `doc-3-1`. -/
def c7Sheet : Sheet :=
  ⟨"abcd",
    [[Val.s "id", Val.s "area"],
     [Val.s "malformed_id", Val.n 5],
     [Val.s "doc-3-1", Val.n 7]], []⟩

/-- The two candidate URLs determined by a batch suffix alone. -/
def urlOfSuffix (pdfId bucketUrl s : String) : String × String :=
  (bucketUrl ++ (pdfId ++ "-" ++ s) ++ "-features.csv",
   bucketUrl ++ (pdfId ++ "-" ++ s) ++ "-labels.csv")

/-- The only ten suffixes the batch loop can ever produce. -/
def tenSuffixes : List String :=
  ["001", "101", "201", "301", "401", "501", "601", "701", "801", "901"]

/-- Batch ordinal `j` (loop counter `1 + 100 j`) has a file: its labels
or its features URL answers 200. -/
def batchOkB (pdfId bucketUrl : String) (fetch : String → Nat × String) (j : Nat) : Bool :=
  ((fetch (batchUrls pdfId bucketUrl (1 + 100 * j)).2).1 == 200) ||
    ((fetch (batchUrls pdfId bucketUrl (1 + 100 * j)).1).1 == 200)

/-- The body contributed by batch ordinal `j`: the labels body when the
labels file answers 200, else the features body. -/
def batchBody (pdfId bucketUrl : String) (fetch : String → Nat × String) (j : Nat) : String :=
  if (fetch (batchUrls pdfId bucketUrl (1 + 100 * j)).2).1 = 200 then
    (fetch (batchUrls pdfId bucketUrl (1 + 100 * j)).2).2
  else (fetch (batchUrls pdfId bucketUrl (1 + 100 * j)).1).2

/-- Concatenation of a list of strings in order. -/
def concatAll (l : List String) : String := l.foldr (fun a b => a ++ b) ""

/-- The C5 sheet: row 2 holds id `a-1-10`, row 3 holds id `a-1-1`. -/
def c5Sheet : Sheet :=
  ⟨"abcd",
    [[Val.s "id", Val.s "text", Val.s "label"],
     [Val.s "a-1-10", Val.s "t", Val.s "x"],
     [Val.s "a-1-1", Val.s "u", Val.s "y"]], []⟩

/-- The fetch oracle of the C6 scenario: nothing is present. -/
def c6Fetch : String → Nat × String := fun _ => (404, "")

/-- The C8 example sheet. -/
def c8Sheet : Sheet :=
  ⟨"abcd", [[Val.s "id", Val.s "area"], [Val.s "doc-3-1", Val.n 7]], []⟩

/-! ### Properties of the stable-sort model -/
theorem jsSort_append_single (le : α → α → Bool) (l : List α) (x : α) :
    jsSort le (l ++ [x]) = insertLast le (jsSort le l) x := by
  simp [jsSort, List.foldl_append, insertLast]

theorem insertLast_of_all (le : α → α → Bool) (s : List α) (x : α)
    (h : ∀ y ∈ s, le y x = true) : insertLast le s x = s ++ [x] := by
  induction s with
  | nil => rfl
  | cons y t ih =>
    have hy : le y x = true := h y (List.mem_cons_self _ _)
    simp [insertLast, hy, ih (fun z hz => h z (List.mem_cons_of_mem _ hz))]

theorem foldl_insertLast_of_pairwise (le : α → α → Bool) :
    ∀ (s acc : List α), List.Pairwise (fun a b => le a b = true) (acc ++ s) →
      s.foldl (insertLast le) acc = acc ++ s
  | [], acc, _ => by simp
  | z :: rest, acc, h => by
    have h1 : ∀ y ∈ acc, le y z = true := by
      intro y hy
      exact (List.pairwise_append.mp h).2.2 y hy z (List.mem_cons_self _ _)
    have h2 : List.Pairwise (fun a b => le a b = true) ((acc ++ [z]) ++ rest) := by
      simpa using h
    calc (z :: rest).foldl (insertLast le) acc
        = rest.foldl (insertLast le) (insertLast le acc z) := rfl
      _ = rest.foldl (insertLast le) (acc ++ [z]) := by
            rw [insertLast_of_all le acc z h1]
      _ = (acc ++ [z]) ++ rest := foldl_insertLast_of_pairwise le rest (acc ++ [z]) h2
      _ = acc ++ (z :: rest) := by simp

theorem jsSort_of_pairwise (le : α → α → Bool) (s : List α)
    (h : List.Pairwise (fun a b => le a b = true) s) : jsSort le s = s := by
  simpa [jsSort] using foldl_insertLast_of_pairwise le s [] (by simpa using h)

theorem insertLast_perm (le : α → α → Bool) (s : List α) (x : α) :
    List.Perm (insertLast le s x) (x :: s) := by
  induction s with
  | nil => exact List.Perm.refl _
  | cons y t ih =>
    by_cases h : le y x = true
    · rw [insertLast, if_pos h]
      exact (ih.cons y).trans (List.Perm.swap x y t)
    · rw [insertLast, if_neg h]

theorem jsSort_perm (le : α → α → Bool) (l : List α) :
    List.Perm (jsSort le l) l := by
  induction l using List.reverseRecOn with
  | nil => exact List.Perm.refl _
  | append_singleton l x ih =>
    rw [jsSort_append_single]
    exact ((insertLast_perm le (jsSort le l) x).trans (ih.cons x)).trans
      (List.perm_append_singleton x l).symm

theorem insertLast_pairwise (le : α → α → Bool) (P : α → Prop)
    (tot : ∀ a b, P a → P b → le a b = true ∨ le b a = true)
    (htr : ∀ a b c, P a → P b → P c → le a b = true → le b c = true → le a c = true)
    (s : List α) (x : α) (hs : List.Pairwise (fun a b => le a b = true) s)
    (hP : ∀ y ∈ s, P y) (hx : P x) :
    List.Pairwise (fun a b => le a b = true) (insertLast le s x) := by
  induction s with
  | nil => simp [insertLast]
  | cons y t ih =>
    rcases List.pairwise_cons.mp hs with ⟨hy, ht⟩
    have hPy : P y := hP y (List.mem_cons_self _ _)
    have hPt : ∀ z ∈ t, P z := fun z hz => hP z (List.mem_cons_of_mem _ hz)
    by_cases h : le y x = true
    · rw [insertLast, if_pos h]
      refine List.pairwise_cons.mpr ⟨?_, ih ht hPt⟩
      intro z hz
      rcases List.mem_cons.mp ((insertLast_perm le t x).mem_iff.mp hz) with rfl | hz2
      · exact h
      · exact hy z hz2
    · rw [insertLast, if_neg h]
      have hxy : le x y = true := (tot y x hPy hx).resolve_left h
      refine List.pairwise_cons.mpr ⟨?_, hs⟩
      intro z hz
      rcases List.mem_cons.mp hz with rfl | hz2
      · exact hxy
      · exact htr x y z hx hPy (hPt z hz2) hxy (hy z hz2)

theorem jsSort_pairwise (le : α → α → Bool) (P : α → Prop)
    (tot : ∀ a b, P a → P b → le a b = true ∨ le b a = true)
    (htr : ∀ a b c, P a → P b → P c → le a b = true → le b c = true → le a c = true)
    (l : List α) (hP : ∀ y ∈ l, P y) :
    List.Pairwise (fun a b => le a b = true) (jsSort le l) := by
  induction l using List.reverseRecOn with
  | nil => simp [jsSort]
  | append_singleton l x ih =>
    rw [jsSort_append_single]
    refine insertLast_pairwise le P tot htr _ x
      (ih (fun y hy => hP y (List.mem_append_left _ hy))) ?_
      (hP x (List.mem_append_right _ (List.mem_singleton_self x)))
    intro y hy
    exact hP y (List.mem_append_left _ ((jsSort_perm le l).mem_iff.mp hy))

theorem insertLast_map_snd {β : Type} (leT : Nat × β → Nat × β → Bool)
    (le : β → β → Bool) (s : List (Nat × β)) (p : Nat × β)
    (hagree : ∀ q ∈ s, leT q p = le q.2 p.2) :
    (insertLast leT s p).map Prod.snd = insertLast le (s.map Prod.snd) p.2 := by
  induction s with
  | nil => rfl
  | cons q t ih =>
    have hq : leT q p = le q.2 p.2 := hagree q (List.mem_cons_self _ _)
    by_cases h : leT q p = true
    · rw [insertLast, if_pos h, List.map_cons, List.map_cons, insertLast,
        if_pos (hq ▸ h), ih (fun z hz => hagree z (List.mem_cons_of_mem _ hz))]
    · rw [insertLast, if_neg h, List.map_cons, List.map_cons, insertLast,
        if_neg (hq ▸ h)]


/-! ### Dictionary access lemmas -/
theorem jsGet_append_ne {α : Type} (d : List (String × α)) (k p : String) (v : α)
    (h : p ≠ k) : jsGet (d ++ [(k, v)]) p = jsGet d p := by
  simp only [jsGet, List.find?_append]
  have : List.find? (fun e => decide (e.1 = p)) [(k, v)] = none := by
    simp [List.find?, Ne.symm h]
  rw [this]
  cases List.find? (fun e => decide (e.1 = p)) d <;> rfl

theorem jsGet_append_self {α : Type} (d : List (String × α)) (k : String) (v : α)
    (h : jsGet d k = none) : jsGet (d ++ [(k, v)]) k = some v := by
  simp only [jsGet, List.find?_append]
  have hd : List.find? (fun e => decide (e.1 = k)) d = none := by
    simp only [jsGet] at h
    cases hf : List.find? (fun e => decide (e.1 = k)) d with
    | none => rfl
    | some e => rw [hf] at h; simp at h
  rw [hd]
  simp [List.find?]

theorem jsGet_jsSet_self {α : Type} (d : List (String × α)) (k : String) (v : α)
    (h : (jsGet d k).isSome) : jsGet (jsSet d k v) k = some v := by
  induction d with
  | nil => simp [jsGet] at h
  | cons e t ih =>
    by_cases he : e.1 = k
    · simp only [jsSet, List.map_cons, if_pos he, jsGet]
      rw [List.find?_cons_of_pos _ (by simp)]
      rfl
    · simp only [jsGet] at h
      rw [List.find?_cons_of_neg _ (by simpa using he)] at h
      simp only [jsSet, List.map_cons, if_neg he, jsGet]
      rw [List.find?_cons_of_neg _ (by simpa using he)]
      exact ih h

theorem jsGet_jsSet_ne {α : Type} (d : List (String × α)) (k p : String) (v : α)
    (h : p ≠ k) : jsGet (jsSet d k v) p = jsGet d p := by
  induction d with
  | nil => rfl
  | cons e t ih =>
    by_cases he : e.1 = k
    · simp only [jsSet, List.map_cons, if_pos he, jsGet]
      rw [List.find?_cons_of_neg _ (by simpa using Ne.symm h),
        List.find?_cons_of_neg _ (by simp [he, Ne.symm h])]
      exact ih
    · simp only [jsSet, List.map_cons, if_neg he, jsGet]
      by_cases hep : e.1 = p
      · rw [List.find?_cons_of_pos _ (by simpa using hep),
          List.find?_cons_of_pos _ (by simpa using hep)]
      · rw [List.find?_cons_of_neg _ (by simpa using hep),
          List.find?_cons_of_neg _ (by simpa using hep)]
        exact ih


theorem areaInt_eq {r : Record} {x : Int} (h : rlookup r "area" = some (Val.n x)) :
    areaInt r = x := by
  simp [areaInt, h]

theorem recLe_eq_decide {a b : Record} (ha : numArea a) (hb : numArea b) :
    recLe a b = decide (areaInt b ≤ areaInt a) := by
  obtain ⟨x, hx⟩ := ha
  obtain ⟨y, hy⟩ := hb
  rw [areaInt_eq hx, areaInt_eq hy]
  simp only [recLe, jsCmpArea, hx, hy, jsLtV, jsEqV]
  by_cases h1 : x < y
  · have h3 : ¬ y ≤ x := by omega
    simp [h1, h3]
  · by_cases h2 : x = y
    · simp [h1, h2]
    · have h3 : y ≤ x := by omega
      simp [h1, h2, h3]

theorem lexLe_total (p q : Nat × Record) : lexLe p q = true ∨ lexLe q p = true := by
  simp only [lexLe, Bool.or_eq_true, Bool.and_eq_true, decide_eq_true_eq]
  omega

theorem lexLe_trans (p q w : Nat × Record) (h1 : lexLe p q = true)
    (h2 : lexLe q w = true) : lexLe p w = true := by
  simp only [lexLe, Bool.or_eq_true, Bool.and_eq_true, decide_eq_true_eq] at *
  omega

theorem tagFrom_append (k : Nat) (l : List α) (x : α) :
    tagFrom k (l ++ [x]) = tagFrom k l ++ [(k + l.length, x)] := by
  induction l generalizing k with
  | nil => simp [tagFrom]
  | cons y t ih =>
    have harith : k + 1 + t.length = k + (t.length + 1) := by omega
    show (k, y) :: tagFrom (k + 1) (t ++ [x]) =
      (k, y) :: (tagFrom (k + 1) t ++ [(k + (t.length + 1), x)])
    rw [ih (k + 1), harith]

theorem tagFrom_mem_snd (k : Nat) (l : List α) :
    ∀ q ∈ tagFrom k l, q.2 ∈ l := by
  induction l generalizing k with
  | nil => simp [tagFrom]
  | cons y t ih =>
    intro q hq
    rcases List.mem_cons.mp hq with rfl | hq2
    · exact List.mem_cons_self _ _
    · exact List.mem_cons_of_mem _ (ih (k + 1) q hq2)

theorem tagFrom_fst_lt (k : Nat) (l : List α) :
    ∀ q ∈ tagFrom k l, q.1 < k + l.length := by
  induction l generalizing k with
  | nil => simp [tagFrom]
  | cons y t ih =>
    intro q hq
    rcases List.mem_cons.mp hq with rfl | hq2
    · simp
    · have := ih (k + 1) q hq2
      simp only [List.length_cons]
      omega

/-- The step equation: pushing a freshly-tagged record into a bucket
and re-sorting with the source comparator agrees with the
specification-side stable sort of the extended tagged sequence. -/
theorem sortStep_eq (tfil : List (Nat × Record)) (n : Nat) (r : Record)
    (hidx : ∀ q ∈ tfil, q.1 < n)
    (hnum : ∀ q ∈ tfil, numArea q.2) (hr : numArea r) :
    jsSort recLe ((jsSort lexLe tfil).map Prod.snd ++ [r]) =
      (jsSort lexLe (tfil ++ [(n, r)])).map Prod.snd := by
  have hsorted : List.Pairwise (fun a b => lexLe a b = true) (jsSort lexLe tfil) :=
    jsSort_pairwise lexLe (fun _ => True)
      (fun a b _ _ => lexLe_total a b)
      (fun a b c _ _ _ => lexLe_trans a b c)
      tfil (fun _ _ => trivial)
  have hmemt : ∀ q ∈ jsSort lexLe tfil, q ∈ tfil :=
    fun q hq => (jsSort_perm lexLe tfil).mem_iff.mp hq
  have hagree : ∀ q ∈ jsSort lexLe tfil, lexLe q (n, r) = recLe q.2 r := by
    intro q hq
    have h1 : q.1 < n := hidx q (hmemt q hq)
    have h2 : numArea q.2 := hnum q (hmemt q hq)
    rw [recLe_eq_decide h2 hr]
    simp only [lexLe, decide_eq_true_eq]
    by_cases hlt : areaInt r < areaInt q.2
    · simp [hlt]
      omega
    · by_cases heq : areaInt q.2 = areaInt r
      · simp [hlt, heq]
        omega
      · simp [hlt, heq]
        omega
  have hpairB : List.Pairwise (fun a b => recLe a b = true)
      ((jsSort lexLe tfil).map Prod.snd) := by
    rw [List.pairwise_map]
    refine hsorted.imp_of_mem ?_
    intro a b hma hmb hab
    have hna : numArea a.2 := hnum a (hmemt a hma)
    have hnb : numArea b.2 := hnum b (hmemt b hmb)
    rw [recLe_eq_decide hna hnb]
    simp only [lexLe, Bool.or_eq_true, Bool.and_eq_true, decide_eq_true_eq] at hab ⊢
    omega
  rw [jsSort_append_single lexLe tfil (n, r),
    insertLast_map_snd lexLe recLe (jsSort lexLe tfil) (n, r) hagree,
    jsSort_append_single recLe, jsSort_of_pairwise recLe _ hpairB]

theorem bucketSpec_skip (processed : List Record) (r : Record)
    (h : idPage r = none) (pg : String) :
    bucketSpec (processed ++ [r]) pg = bucketSpec processed pg := by
  have : taggedPageRecs (processed ++ [r]) pg = taggedPageRecs processed pg := by
    simp only [taggedPageRecs, tagFrom_append, List.filter_append]
    simp [h]
  simp [bucketSpec, this]

theorem countMatched_append (l : List Record) (r : Record) :
    countMatched (l ++ [r]) =
      countMatched l + (if (idPage r).isSome then 1 else 0) := by
  simp only [countMatched, List.filter_append, List.length_append]
  by_cases h : (idPage r).isSome <;> simp [h]

theorem processAll_invD :
    ∀ (recs : List Record) (st : BState) (processed : List Record),
      InvD processed st →
      (∀ r ∈ processed, (idPage r).isSome = true → numArea r) →
      (∀ r ∈ recs, (∃ s, rlookup r "id" = some (Val.s s)) ∧
        ((idPage r).isSome = true → numArea r)) →
      ∃ st', processAll st recs = .ok st' ∧ InvD (processed ++ recs) st'
  | [], st, processed, hinv, _, _ => ⟨st, rfl, by simpa using hinv⟩
  | r :: rs, st, processed, hinv, hproc, hgood => by
    obtain ⟨⟨s, hs⟩, hnum⟩ := hgood r (List.mem_cons_self _ _)
    have hgood' := fun z hz => hgood z (List.mem_cons_of_mem _ hz)
    cases hp : parseId s with
    | none =>
      have hpage : idPage r = none := by simp [idPage, hs, hp]
      have hstep : processAll st (r :: rs) = processAll st rs := by
        simp [processAll, processRec, hs, hp]
      rw [hstep]
      have hinv' : InvD (processed ++ [r]) st := by
        refine ⟨fun pg => ?_, ?_⟩
        · rw [bucketSpec_skip processed r hpage pg]
          exact hinv.1 pg
        · rw [countMatched_append]
          simp [hpage, hinv.2]
      have hproc' : ∀ z ∈ processed ++ [r], (idPage z).isSome = true → numArea z := by
        intro z hz
        rcases List.mem_append.mp hz with hz1 | hz2
        · exact hproc z hz1
        · rw [List.mem_singleton.mp hz2]
          exact hnum
      obtain ⟨st', h1, h2⟩ := processAll_invD rs st (processed ++ [r]) hinv' hproc' hgood'
      exact ⟨st', h1, by simpa using h2⟩
    | some x =>
      have hpage : idPage r = some x.2.1 := by simp [idPage, hs, hp]
      set pg0 := x.2.1 with hpg0
      set d0 := if (jsGet st.dict pg0).isSome then st.dict
                else st.dict ++ [(pg0, [])] with hd0
      set bucket := (jsGet d0 pg0).getD [] with hbucket
      set st1 : BState :=
        ⟨jsSet d0 pg0 (jsSort recLe (bucket ++ [r])),
          if (jsGet st.dict pg0).isSome then st.pageCount else st.pageCount + 1,
          st.paraCount + 1⟩ with hst1
      have hstep : processAll st (r :: rs) = processAll st1 rs := by
        simp only [processAll, processRec, hs, hp]
      have hd0some : (jsGet d0 pg0).isSome := by
        rw [hd0]
        by_cases hc : (jsGet st.dict pg0).isSome
        · simpa [hc] using hc
        · rw [if_neg hc]
          rw [jsGet_append_self]
          · rfl
          · cases hg : jsGet st.dict pg0
            · rfl
            · rw [hg] at hc
              simp at hc
      have htagnew : taggedPageRecs (processed ++ [r]) pg0 =
          taggedPageRecs processed pg0 ++ [(processed.length, r)] := by
        simp only [taggedPageRecs, tagFrom_append, List.filter_append]
        simp [hpage]
      have hbucket_eq : bucket = (jsSort lexLe (taggedPageRecs processed pg0)).map Prod.snd := by
        rw [hbucket]
        by_cases hc : (jsGet st.dict pg0).isSome
        · have h1 : jsGet d0 pg0 = jsGet st.dict pg0 := by rw [hd0, if_pos hc]
          have h2 := hinv.1 pg0
          rw [h1, h2]
          rw [bucketSpec] at *
          by_cases he : (taggedPageRecs processed pg0).isEmpty
          · rw [h2] at hc
            simp only [bucketSpec, he] at hc
            simp at hc
          · simp [he]
        · have h2 := hinv.1 pg0
          have he : (taggedPageRecs processed pg0).isEmpty := by
            by_contra hne
            rw [h2] at hc
            simp only [bucketSpec, if_neg hne] at hc
            simp at hc
          rw [hd0, if_neg hc, jsGet_append_self]
          · simp only [Option.getD_some]
            rw [List.isEmpty_iff.mp he]
            rfl
          · cases hg : jsGet st.dict pg0
            · rfl
            · rw [hg] at hc
              simp at hc
      have hinv' : InvD (processed ++ [r]) st1 := by
        constructor
        · intro pg
          by_cases hpg : pg = pg0
          · subst hpg
            rw [hst1]
            show jsGet (jsSet d0 pg0 (jsSort recLe (bucket ++ [r]))) pg0 = _
            rw [jsGet_jsSet_self d0 pg0 _ hd0some]
            rw [bucketSpec, htagnew]
            have hne : ¬(taggedPageRecs processed pg0 ++ [(processed.length, r)]).isEmpty := by
              simp
            rw [if_neg hne]
            congr 1
            rw [hbucket_eq]
            exact sortStep_eq (taggedPageRecs processed pg0) processed.length r
              (fun q hq => by
                have := tagFrom_fst_lt 0 processed q (List.mem_of_mem_filter hq)
                omega)
              (fun q hq => by
                have hqp : idPage q.2 = some pg0 := by
                  have := List.of_mem_filter hq
                  simpa using this
                have hq2 : q.2 ∈ processed :=
                  tagFrom_mem_snd 0 processed q (List.mem_of_mem_filter hq)
                exact hproc q.2 hq2 (by simp [hqp]))
              (hnum (by simp [hpage]))
          · rw [hst1]
            show jsGet (jsSet d0 pg0 (jsSort recLe (bucket ++ [r]))) pg = _
            rw [jsGet_jsSet_ne d0 pg0 pg _ hpg]
            have h1 : jsGet d0 pg = jsGet st.dict pg := by
              rw [hd0]
              by_cases hc : (jsGet st.dict pg0).isSome
              · rw [if_pos hc]
              · rw [if_neg hc]
                exact jsGet_append_ne st.dict pg0 pg [] hpg
            rw [h1, hinv.1 pg]
            have : taggedPageRecs (processed ++ [r]) pg = taggedPageRecs processed pg := by
              simp only [taggedPageRecs, tagFrom_append, List.filter_append]
              have : decide (idPage r = some pg) = false := by
                simp [hpage]
                exact fun h => absurd h.symm hpg
              simp [this]
            simp [bucketSpec, this]
        · rw [hst1]
          show st.paraCount + 1 = countMatched (processed ++ [r])
          rw [countMatched_append]
          simp [hpage, hinv.2]
      have hproc' : ∀ z ∈ processed ++ [r], (idPage z).isSome = true → numArea z := by
        intro z hz
        rcases List.mem_append.mp hz with hz1 | hz2
        · exact hproc z hz1
        · rw [List.mem_singleton.mp hz2]
          exact hnum
      rw [hstep]
      obtain ⟨st', h1, h2⟩ := processAll_invD rs st1 (processed ++ [r]) hinv' hproc' hgood'
      exact ⟨st', h1, by simpa using h2⟩


/-! ### The blank overshoot row -/
theorem rlookup_of_const (acc : Record) (v : Val)
    (hv : ∀ e ∈ acc, e.2 = v) (k : String) (hk : k ∈ acc.map Prod.fst) :
    rlookup acc k = some v := by
  induction acc with
  | nil => simp at hk
  | cons e t ih =>
    by_cases he : e.1 = k
    · rw [rlookup, List.find?_cons_of_pos _ (by simpa using he)]
      simp [hv e (List.mem_cons_self _ _)]
    · rw [rlookup, List.find?_cons_of_neg _ (by simpa using he)]
      have hk' : k ∈ t.map Prod.fst := by
        rcases (by simpa using hk : k = e.1 ∨ k ∈ t.map Prod.fst) with h1 | h2
        · exact absurd h1.symm he
        · exact h2
      exact ih (fun z hz => hv z (List.mem_cons_of_mem _ hz)) hk'

theorem rset_const (r : Record) (k : String) (v : Val)
    (hv : ∀ e ∈ r, e.2 = v) : ∀ e ∈ rset r k v, e.2 = v := by
  intro e he
  rw [rset] at he
  by_cases hp : (r.find? (fun e => e.1 = k)).isSome
  · rw [if_pos hp] at he
    rcases List.mem_map.mp he with ⟨e', he', hee⟩
    by_cases hek : e'.1 = k
    · rw [if_pos hek] at hee
      rw [← hee]
    · rw [if_neg hek] at hee
      rw [← hee]
      exact hv e' he'
  · rw [if_neg hp] at he
    rcases List.mem_append.mp he with h1 | h2
    · exact hv e h1
    · rw [List.mem_singleton.mp h2]

theorem rset_keys (r : Record) (k : String) (v : Val) (k' : String)
    (hk : k' ∈ r.map Prod.fst ∨ k' = k) :
    k' ∈ (rset r k v).map Prod.fst := by
  rw [rset]
  by_cases hp : (r.find? (fun e => e.1 = k)).isSome
  · rw [if_pos hp]
    rcases hk with h1 | h2
    · rcases List.mem_map.mp h1 with ⟨e, he, hek⟩
      by_cases hq : e.1 = k
      · refine List.mem_map.mpr ⟨(k, v), List.mem_map.mpr ⟨e, he, by rw [if_pos hq]⟩, ?_⟩
        rw [← hek, hq]
      · exact List.mem_map.mpr ⟨e, List.mem_map.mpr ⟨e, he, by rw [if_neg hq]⟩, hek⟩
    · subst h2
      rcases Option.isSome_iff_exists.mp hp with ⟨e, hfind⟩
      have he : e ∈ r := List.mem_of_find?_eq_some hfind
      have hek : e.1 = k' := by simpa using List.find?_some hfind
      exact List.mem_map.mpr ⟨(k', v), List.mem_map.mpr ⟨e, he, by rw [if_pos hek]⟩, rfl⟩
  · rw [if_neg hp]
    rcases hk with h1 | h2
    · rw [List.map_append]
      exact List.mem_append_left _ h1
    · subst h2
      rw [List.map_append]
      exact List.mem_append_right _ (by simp)

theorem foldl_rset_const (pairs : List (String × Val)) (v : Val)
    (hp : ∀ e ∈ pairs, e.2 = v) :
    ∀ (acc : Record), (∀ e ∈ acc, e.2 = v) →
      ∀ k, (k ∈ acc.map Prod.fst ∨ k ∈ pairs.map Prod.fst) →
        rlookup (pairs.foldl (fun r e => rset r e.1 e.2) acc) k = some v := by
  induction pairs with
  | nil =>
    intro acc hacc k hk
    rcases hk with h1 | h2
    · exact rlookup_of_const acc v hacc k h1
    · simp at h2
  | cons e0 rest ih =>
    intro acc hacc k hk
    have hv0 : e0.2 = v := hp e0 (List.mem_cons_self _ _)
    have hacc' : ∀ e ∈ rset acc e0.1 e0.2, e.2 = v := by
      rw [hv0]
      exact rset_const acc e0.1 v hacc
    have hk' : k ∈ (rset acc e0.1 e0.2).map Prod.fst ∨ k ∈ rest.map Prod.fst := by
      rcases hk with h1 | h2
      · exact Or.inl (rset_keys acc e0.1 e0.2 k (Or.inl h1))
      · rcases (by simpa using h2 : k = e0.1 ∨ k ∈ rest.map Prod.fst) with h3 | h4
        · exact Or.inl (rset_keys acc e0.1 e0.2 k (Or.inr h3))
        · exact Or.inr h4
    exact ih (fun z hz => hp z (List.mem_cons_of_mem _ hz)) _ hacc' k hk'

theorem blankRec_id (names : List String) (w : Nat) (hk : "id" ∈ names)
    (hlen : names.length = w) :
    rlookup (mkRecord names (List.replicate w (Val.s ""))) "id" = some (Val.s "") := by
  rw [mkRecord]
  apply foldl_rset_const
  · intro e he
    exact List.eq_of_mem_replicate (List.of_mem_zip he).2
  · intro e he
    simp at he
  · right
    rw [List.map_fst_zip _ _ (by simp [hlen])]
    exact hk


/-! ### Sheet shape lemmas -/
theorem padRow_length (w : Nat) (row : List Val) (h : row.length ≤ w) :
    (padRow w row).length = w := by
  simp only [padRow, List.length_append, List.length_take, List.length_replicate]
  rw [Nat.min_eq_right h]
  omega

theorem padRow_zero (row : List Val) : padRow 0 row = [] := by
  simp [padRow]

theorem foldr_max_le (l : List Nat) : ∀ x ∈ l, x ≤ l.foldr max 0 := by
  induction l with
  | nil => simp
  | cons y t ih =>
    intro x hx
    rcases List.mem_cons.mp hx with rfl | hx2
    · exact le_max_left _ _
    · exact le_trans (ih x hx2) (le_max_right _ _)

theorem head_length_le_width (sh : Sheet) (h : sh.cells ≠ []) :
    (sh.cells.headD []).length ≤ sheetWidth sh := by
  cases hc : sh.cells with
  | nil => exact absurd hc h
  | cons r t =>
    have hm : r ∈ sh.cells := by
      rw [hc]
      exact List.mem_cons_self _ _
    have := foldr_max_le (sh.cells.map List.length) r.length (List.mem_map_of_mem _ hm)
    simpa [sheetWidth, hc] using this

theorem sheetNames_length (sh : Sheet) (h : sh.cells ≠ []) :
    (sheetNames sh).length = sheetWidth sh := by
  simp only [sheetNames, List.length_map, headerListOf]
  exact padRow_length _ _ (head_length_le_width sh h)


theorem numArea_of_numAreaB {r : Record} (h : numAreaB r = true) : numArea r := by
  rw [numAreaB] at h
  cases hq : rlookup r "area" with
  | none => rw [hq] at h; simp at h
  | some v =>
    cases v with
    | s t => rw [hq] at h; simp at h
    | n k => exact ⟨k, hq⟩

/-- C1: for every sheet whose data rows carry well-formed ids (the `id`
field is a string matching `<name>-<page>-<paragraph>`) and numeric
`area` fields, the dictionary built by `buildParaDictFromSheet` maps
each page string to exactly that page's records sorted by `area`
descending with ties in encounter order (`bucketSpec`: the stable sort
of the encounter-tagged page records by descending area, ties broken by
encounter index), and maps nothing to pages that never occur; every
bucket is pairwise descending in `area`. -/
theorem buildParaDict_sorted_desc (pdfId : String) (store : Store) (sh : Sheet)
    (hsh : getSheetByName store pdfId = some sh)
    (hid : "id" ∈ sheetNames sh)
    (hgoodB : ∀ r ∈ sheetRecs sh, wellFormedRec r = true)
    (hnumB : ∀ r ∈ sheetRecs sh, numAreaB r = true) :
    ∃ d pc qc, buildParaDictFromSheet pdfId store = .ok (d, pc, qc) ∧
      (∀ pg, jsGet d pg = bucketSpec (sheetRecs sh) pg) ∧
      (∀ pg l, jsGet d pg = some l →
        List.Pairwise (fun a b => areaInt b ≤ areaInt a) l) := by
  have hgood : ∀ r ∈ sheetRecs sh, ∃ s, rlookup r "id" = some (Val.s s) ∧ (parseId s).isSome := by
    intro r hr
    have h0 := hgoodB r hr
    rw [wellFormedRec] at h0
    cases hq : rlookup r "id" with
    | none => rw [hq] at h0; simp at h0
    | some v =>
      cases v with
      | s s =>
        rw [hq] at h0
        exact ⟨s, rfl, h0⟩
      | n k => rw [hq] at h0; simp at h0
  have hnum : ∀ r ∈ sheetRecs sh, numArea r :=
    fun r hr => numArea_of_numAreaB (hnumB r hr)
  have hw : sheetWidth sh ≠ 0 := by
    intro h0
    have : headerListOf sh = [] := by
      rw [headerListOf, h0, padRow_zero]
    rw [sheetNames, this] at hid
    simp at hid
  have hcne : sh.cells ≠ [] := by
    intro h0
    apply hw
    simp [sheetWidth, h0]
  have hblank : rlookup (mkRecord (sheetNames sh) (List.replicate (sheetWidth sh) (Val.s ""))) "id"
      = some (Val.s "") :=
    blankRec_id _ _ hid (sheetNames_length sh hcne)
  have hblankPage : idPage (mkRecord (sheetNames sh) (List.replicate (sheetWidth sh) (Val.s ""))) = none := by
    rw [idPage, hblank]
    rfl
  have hrecs : ((((sh.cells.drop 1).map (padRow (sheetWidth sh))) ++
      [List.replicate (sheetWidth sh) (Val.s "")]).map (mkRecord (sheetNames sh)))
      = sheetRecs sh ++ [mkRecord (sheetNames sh) (List.replicate (sheetWidth sh) (Val.s ""))] := by
    rw [List.map_append]
    rfl
  have hinv0 : InvD [] ⟨[], 0, 0⟩ := by
    constructor
    · intro pg
      simp [jsGet, bucketSpec, taggedPageRecs, tagFrom]
    · simp [countMatched]
  have hgood' : ∀ r ∈ sheetRecs sh ++ [mkRecord (sheetNames sh) (List.replicate (sheetWidth sh) (Val.s ""))],
      (∃ s, rlookup r "id" = some (Val.s s)) ∧ ((idPage r).isSome = true → numArea r) := by
    intro r hr
    rcases List.mem_append.mp hr with h1 | h2
    · obtain ⟨s, hs1, _⟩ := hgood r h1
      exact ⟨⟨s, hs1⟩, fun _ => hnum r h1⟩
    · rw [List.mem_singleton.mp h2]
      refine ⟨⟨"", hblank⟩, ?_⟩
      rw [hblankPage]
      intro hcontra
      simp at hcontra
  obtain ⟨st', hrun, hinv⟩ := processAll_invD _ ⟨[], 0, 0⟩ [] hinv0 (by simp) hgood'
  have hbuild : buildParaDictFromSheet pdfId store = .ok (st'.dict, st'.pageCount, st'.paraCount) := by
    have hcond : (sh.cells.isEmpty || sheetWidth sh == 0) = false := by
      simp [List.isEmpty_iff, hcne, hw]
    simp only [buildParaDictFromSheet, hsh, hcond, Bool.false_eq_true, if_false]
    rw [show List.map cellText (headerListOf sh) = sheetNames sh from rfl, hrecs, hrun]
    rfl
  refine ⟨st'.dict, st'.pageCount, st'.paraCount, hbuild, ?_, ?_⟩
  · intro pg
    have h1 := hinv.1 pg
    rw [List.nil_append] at h1
    rw [h1, bucketSpec_skip _ _ hblankPage pg]
  · intro pg l hl
    have h1 := hinv.1 pg
    rw [List.nil_append] at h1
    rw [h1, bucketSpec_skip _ _ hblankPage pg] at hl
    rw [bucketSpec] at hl
    by_cases he : (taggedPageRecs (sheetRecs sh) pg).isEmpty
    · rw [if_pos he] at hl
      simp at hl
    · rw [if_neg he] at hl
      have hl2 : l = (jsSort lexLe (taggedPageRecs (sheetRecs sh) pg)).map Prod.snd := by
        exact (Option.some_injective _ hl.symm)
      rw [hl2, List.pairwise_map]
      refine (jsSort_pairwise lexLe (fun _ => True)
        (fun a b _ _ => lexLe_total a b)
        (fun a b c _ _ _ => lexLe_trans a b c)
        _ (fun _ _ => trivial)).imp_of_mem ?_
      intro a b _ _ hab
      simp only [lexLe, Bool.or_eq_true, Bool.and_eq_true, decide_eq_true_eq] at hab
      omega

/-- Witness for C1: on the example sheet the hypotheses hold and the
dictionary maps `"3"` to the area-200 record followed by the area-50
record and `"4"` to the area-10 record. -/
theorem buildParaDict_sorted_desc_witness :
    ((getSheetByName [c1Sheet] "abcd" = some c1Sheet) ∧
      ("id" ∈ sheetNames c1Sheet) ∧
      (∀ r ∈ sheetRecs c1Sheet, wellFormedRec r = true) ∧
      (∀ r ∈ sheetRecs c1Sheet, numAreaB r = true)) ∧
    (∃ d pc qc, buildParaDictFromSheet "abcd" [c1Sheet] = .ok (d, pc, qc) ∧
      (∀ pg, jsGet d pg = bucketSpec (sheetRecs c1Sheet) pg) ∧
      (∀ pg l, jsGet d pg = some l →
        List.Pairwise (fun a b => areaInt b ≤ areaInt a) l)) ∧
    (buildParaDictFromSheet "abcd" [c1Sheet] =
      .ok ([("3", [[("id", Val.s "doc-3-2"), ("text", Val.s "t2"), ("area", Val.n 200)],
                   [("id", Val.s "doc-3-1"), ("text", Val.s "t1"), ("area", Val.n 50)]]),
            ("4", [[("id", Val.s "doc-4-1"), ("text", Val.s "t3"), ("area", Val.n 10)]])], 2, 3)) :=
  ⟨⟨by decide, by decide, by decide, by decide⟩,
    buildParaDict_sorted_desc "abcd" [c1Sheet] c1Sheet (by decide) (by decide)
      (by decide) (by decide),
    by rfl⟩


theorem processAll_invM :
    ∀ (recs : List Record) (st : BState),
      InvM st →
      (∀ r ∈ recs, idIsString r = true) →
      ∃ st', processAll st recs = .ok st' ∧ InvM st' ∧
        st'.paraCount = st.paraCount + countMatched recs
  | [], st, hinv, _ => ⟨st, rfl, hinv, by simp [countMatched]⟩
  | r :: rs, st, hinv, hgood => by
    have h0 := hgood r (List.mem_cons_self _ _)
    have hgood' := fun z hz => hgood z (List.mem_cons_of_mem _ hz)
    rw [idIsString] at h0
    cases hq : rlookup r "id" with
    | none => rw [hq] at h0; simp at h0
    | some v =>
      cases v with
      | n k => rw [hq] at h0; simp at h0
      | s s =>
        cases hp : parseId s with
        | none =>
          have hpage : idPage r = none := by simp [idPage, hq, hp]
          have hstep : processAll st (r :: rs) = processAll st rs := by
            simp [processAll, processRec, hq, hp]
          rw [hstep]
          obtain ⟨st', h1, h2, h3⟩ := processAll_invM rs st hinv hgood'
          refine ⟨st', h1, h2, ?_⟩
          rw [h3]
          have hcm : countMatched (r :: rs) = countMatched rs := by
            simp [countMatched, List.filter_cons, hpage]
          rw [hcm]
        | some x =>
          have hpage : idPage r = some x.2.1 := by simp [idPage, hq, hp]
          set pg0 := x.2.1 with hpg0
          set d0 := if (jsGet st.dict pg0).isSome then st.dict
                    else st.dict ++ [(pg0, [])] with hd0
          set bucket := (jsGet d0 pg0).getD [] with hbucket
          set st1 : BState :=
            ⟨jsSet d0 pg0 (jsSort recLe (bucket ++ [r])),
              if (jsGet st.dict pg0).isSome then st.pageCount else st.pageCount + 1,
              st.paraCount + 1⟩ with hst1
          have hstep : processAll st (r :: rs) = processAll st1 rs := by
            simp only [processAll, processRec, hq, hp]
          have hbmem : ∀ z ∈ bucket, idPage z = some pg0 := by
            intro z hz
            rw [hbucket] at hz
            by_cases hc : (jsGet st.dict pg0).isSome
            · have h1 : jsGet d0 pg0 = jsGet st.dict pg0 := by rw [hd0, if_pos hc]
              rcases Option.isSome_iff_exists.mp hc with ⟨l0, hl0⟩
              rw [h1, hl0] at hz
              exact hinv pg0 l0 hl0 z hz
            · have hnone : jsGet st.dict pg0 = none := by
                cases hg : jsGet st.dict pg0
                · rfl
                · rw [hg] at hc
                  simp at hc
              have h1 : jsGet d0 pg0 = some [] := by
                rw [hd0, if_neg hc]
                exact jsGet_append_self st.dict pg0 [] hnone
              rw [h1] at hz
              simp at hz
          have hd0some : (jsGet d0 pg0).isSome := by
            rw [hd0]
            by_cases hc : (jsGet st.dict pg0).isSome
            · simpa [hc] using hc
            · rw [if_neg hc]
              rw [jsGet_append_self]
              · rfl
              · cases hg : jsGet st.dict pg0
                · rfl
                · rw [hg] at hc
                  simp at hc
          have hinv1 : InvM st1 := by
            intro pg l hl z hz
            rw [hst1] at hl
            by_cases hpg : pg = pg0
            · subst hpg
              rw [jsGet_jsSet_self d0 pg0 _ hd0some] at hl
              have hl2 : l = jsSort recLe (bucket ++ [r]) := (Option.some_injective _ hl.symm)
              rw [hl2] at hz
              rcases List.mem_append.mp ((jsSort_perm recLe _).mem_iff.mp hz) with h1 | h2
              · exact hbmem z h1
              · rw [List.mem_singleton.mp h2]
                exact hpage
            · rw [jsGet_jsSet_ne d0 pg0 pg _ hpg] at hl
              have h1 : jsGet d0 pg = jsGet st.dict pg := by
                rw [hd0]
                by_cases hc : (jsGet st.dict pg0).isSome
                · rw [if_pos hc]
                · rw [if_neg hc]
                  exact jsGet_append_ne st.dict pg0 pg [] hpg
              rw [h1] at hl
              exact hinv pg l hl z hz
          rw [hstep]
          obtain ⟨st', h1, h2, h3⟩ := processAll_invM rs st1 hinv1 hgood'
          refine ⟨st', h1, h2, ?_⟩
          rw [h3, hst1]
          have hcm : countMatched (r :: rs) = countMatched rs + 1 := by
            simp [countMatched, List.filter_cons, hpage]
          show st.paraCount + 1 + countMatched rs = st.paraCount + countMatched (r :: rs)
          rw [hcm]
          omega

/-- C7 counterexample: on a sheet whose header has no `id` column
(every record lacks an `id` field), `buildParaDictFromSheet` raises a
TypeError instead of silently excluding the records, contradicting the
claim that a record lacking an `id` field never causes an error. -/
theorem buildParaDict_missing_id_errors :
    buildParaDictFromSheet "abcd"
      [⟨"abcd", [[Val.s "text", Val.s "area"], [Val.s "hello", Val.n 5]], []⟩] =
      .error "TypeError: Cannot read properties of undefined (reading match)" := by
  rfl

/-- C7 (amended): when the header has an `id` column and every data
row's `id` cell is a string, the build never raises; every record whose
id fails the `<name>-<page>-<paragraph>` pattern is silently excluded
(every bucket member's id matches the pattern, keyed by its own page),
and the informational paragraph counter counts only the matching
records.  A record lacking the `id` field entirely (header without an
`id` column) instead raises a TypeError. -/
theorem buildParaDict_malformed_id_skipped (pdfId : String) (store : Store) (sh : Sheet)
    (hsh : getSheetByName store pdfId = some sh)
    (hid : "id" ∈ sheetNames sh)
    (hstr : ∀ r ∈ sheetRecs sh, idIsString r = true) :
    ∃ d pc qc, buildParaDictFromSheet pdfId store = .ok (d, pc, qc) ∧
      (∀ pg l, jsGet d pg = some l → ∀ r ∈ l, idPage r = some pg) ∧
      qc = countMatched (sheetRecs sh) := by
  have hw : sheetWidth sh ≠ 0 := by
    intro h0
    have : headerListOf sh = [] := by
      rw [headerListOf, h0, padRow_zero]
    rw [sheetNames, this] at hid
    simp at hid
  have hcne : sh.cells ≠ [] := by
    intro h0
    apply hw
    simp [sheetWidth, h0]
  have hblank : rlookup (mkRecord (sheetNames sh) (List.replicate (sheetWidth sh) (Val.s ""))) "id"
      = some (Val.s "") :=
    blankRec_id _ _ hid (sheetNames_length sh hcne)
  have hblankPage : idPage (mkRecord (sheetNames sh) (List.replicate (sheetWidth sh) (Val.s ""))) = none := by
    rw [idPage, hblank]
    rfl
  have hrecs : ((((sh.cells.drop 1).map (padRow (sheetWidth sh))) ++
      [List.replicate (sheetWidth sh) (Val.s "")]).map (mkRecord (sheetNames sh)))
      = sheetRecs sh ++ [mkRecord (sheetNames sh) (List.replicate (sheetWidth sh) (Val.s ""))] := by
    rw [List.map_append]
    rfl
  have hstr' : ∀ r ∈ sheetRecs sh ++ [mkRecord (sheetNames sh) (List.replicate (sheetWidth sh) (Val.s ""))],
      idIsString r = true := by
    intro r hr
    rcases List.mem_append.mp hr with h1 | h2
    · exact hstr r h1
    · rw [List.mem_singleton.mp h2, idIsString, hblank]
  have hinv0 : InvM ⟨[], 0, 0⟩ := by
    intro pg l hl
    simp [jsGet] at hl
  obtain ⟨st', hrun, hinv, hcount⟩ := processAll_invM _ ⟨[], 0, 0⟩ hinv0 hstr'
  have hbuild : buildParaDictFromSheet pdfId store = .ok (st'.dict, st'.pageCount, st'.paraCount) := by
    have hcond : (sh.cells.isEmpty || sheetWidth sh == 0) = false := by
      simp [List.isEmpty_iff, hcne, hw]
    simp only [buildParaDictFromSheet, hsh, hcond, Bool.false_eq_true, if_false]
    rw [show List.map cellText (headerListOf sh) = sheetNames sh from rfl, hrecs, hrun]
    rfl
  refine ⟨st'.dict, st'.pageCount, st'.paraCount, hbuild, hinv, ?_⟩
  rw [hcount]
  rw [countMatched, List.filter_append]
  simp [hblankPage, countMatched]

/-- Witness for the amended C7: on the example sheet the build
succeeds, every bucket member matches the pattern, only one record is
counted, and the malformed record appears in no bucket. -/
theorem buildParaDict_malformed_id_skipped_witness :
    ((getSheetByName [c7Sheet] "abcd" = some c7Sheet) ∧
      ("id" ∈ sheetNames c7Sheet) ∧
      (∀ r ∈ sheetRecs c7Sheet, idIsString r = true)) ∧
    (∃ d pc qc, buildParaDictFromSheet "abcd" [c7Sheet] = .ok (d, pc, qc) ∧
      (∀ pg l, jsGet d pg = some l → ∀ r ∈ l, idPage r = some pg) ∧
      qc = countMatched (sheetRecs c7Sheet)) ∧
    (buildParaDictFromSheet "abcd" [c7Sheet] =
      .ok ([("3", [[("id", Val.s "doc-3-1"), ("area", Val.n 7)]])], 1, 1)) :=
  ⟨⟨by decide, by decide, by decide⟩,
    buildParaDict_malformed_id_skipped "abcd" [c7Sheet] c7Sheet (by decide) (by decide)
      (by decide),
    by rfl⟩

/-! ### The batch suffix and the download loop -/

theorem decCharsAux_irrel : ∀ (f1 f2 n : Nat), n < f1 → n < f2 →
    decCharsAux f1 n = decCharsAux f2 n
  | 0, _, n, h1, _ => absurd h1 (by omega)
  | _ + 1, 0, n, _, h2 => absurd h2 (by omega)
  | f1 + 1, f2 + 1, n, h1, h2 => by
    simp only [decCharsAux]
    by_cases h : n < 10
    · simp [h]
    · simp only [if_neg h]
      rw [decCharsAux_irrel f1 f2 (n / 10) (by omega) (by omega)]

theorem decChars_lt10 (n : Nat) (h : n < 10) : decChars n = [Nat.digitChar n] := by
  rw [decChars, decCharsAux, if_pos h]

theorem decChars_ge10 (n : Nat) (h : 10 ≤ n) :
    decChars n = decChars (n / 10) ++ [Nat.digitChar (n % 10)] := by
  rw [decChars, decCharsAux, if_neg (by omega)]
  rw [decCharsAux_irrel n (n / 10 + 1) (n / 10) (by omega) (by omega)]
  rfl

theorem decChars_ge1000 (n : Nat) (h : 1000 ≤ n) :
    decChars n = decChars (n / 1000) ++
      [Nat.digitChar (n / 100 % 10), Nat.digitChar (n / 10 % 10), Nat.digitChar (n % 10)] := by
  have h1 : n / 10 / 10 = n / 100 := by omega
  have h2 : n / 100 / 10 = n / 1000 := by omega
  rw [decChars_ge10 n (by omega), decChars_ge10 (n / 10) (by omega : 10 ≤ n / 10), h1,
    decChars_ge10 (n / 100) (by omega : 10 ≤ n / 100), h2]
  simp

theorem drop_append_three (pre : List Char) (a b c : Char) :
    ((pre ++ [a, b, c]).drop ((pre ++ [a, b, c]).length - 3)) = [a, b, c] := by
  have h1 : (pre ++ [a, b, c]).length - 3 = pre.length := by simp
  rw [h1]
  exact List.drop_left pre [a, b, c]

theorem suffix3_eq_pad3 (i : Nat) : suffix3 i = pad3 (i % 1000) := by
  rcases Nat.lt_or_ge i 10 with h | h
  · have e0 : i % 1000 = i := Nat.mod_eq_of_lt (by omega)
    have e1 : i / 100 % 10 = 0 := by omega
    have e2 : i / 10 % 10 = 0 := by omega
    have e3 : i % 10 = i := by omega
    rw [suffix3, decChars_lt10 i h, pad3, e0, e1, e2, e3]
    rfl
  rcases Nat.lt_or_ge i 100 with h2 | h2
  · have e0 : i % 1000 = i := Nat.mod_eq_of_lt (by omega)
    have e1 : i / 100 % 10 = 0 := by omega
    have e2 : i / 10 % 10 = i / 10 := by omega
    rw [suffix3, decChars_ge10 i h, decChars_lt10 (i / 10) (by omega), pad3, e0, e1, e2]
    rfl
  rcases Nat.lt_or_ge i 1000 with h3 | h3
  · have e0 : i % 1000 = i := Nat.mod_eq_of_lt (by omega)
    have e1 : i / 10 / 10 = i / 100 := by omega
    have e2 : i / 100 % 10 = i / 100 := by omega
    rw [suffix3, decChars_ge10 i (by omega), decChars_ge10 (i / 10) (by omega), e1,
      decChars_lt10 (i / 100) (by omega), pad3, e0, e2]
    rfl
  · have e1 : i % 1000 / 100 % 10 = i / 100 % 10 := by omega
    have e2 : i % 1000 / 10 % 10 = i / 10 % 10 := by omega
    have e3 : i % 1000 % 10 = i % 10 := by omega
    rw [suffix3, decChars_ge1000 i h3, pad3, e1, e2, e3]
    show ((('0' :: '0' :: '0' :: decChars (i / 1000)) ++
      [Nat.digitChar (i / 100 % 10), Nat.digitChar (i / 10 % 10), Nat.digitChar (i % 10)]).drop
        (('0' :: '0' :: '0' :: decChars (i / 1000) ++
          [Nat.digitChar (i / 100 % 10), Nat.digitChar (i / 10 % 10), Nat.digitChar (i % 10)]).length
          - 3)).asString = _
    rw [drop_append_three]

theorem suffix3_mem_ten (i : Nat) (h : i % 100 = 1) : suffix3 i ∈ tenSuffixes := by
  rw [suffix3_eq_pad3]
  have h2 : i % 1000 < 1000 := Nat.mod_lt _ (by omega)
  have e1 : i % 1000 / 100 % 10 = i % 1000 / 100 := by omega
  have e2 : i % 1000 / 10 % 10 = 0 := by omega
  have e3 : i % 1000 % 10 = 1 := by omega
  have hq : i % 1000 / 100 < 10 := by omega
  rw [pad3, e1, e2, e3]
  set q := i % 1000 / 100 with hqd
  clear_value q
  interval_cases q <;> decide

theorem batchUrls_eq_urlOfSuffix (pdfId bucketUrl : String) (i : Nat) :
    batchUrls pdfId bucketUrl i = urlOfSuffix pdfId bucketUrl (suffix3 i) := rfl

theorem dlLoop_succ (pdfId bucketUrl : String) (fetch : String → Nat × String)
    (fuel i : Nat) :
    dlLoop pdfId bucketUrl fetch (fuel + 1) i =
      (if (fetch (batchUrls pdfId bucketUrl i).2).1 = 200 then
        ((batchUrls pdfId bucketUrl i).1 :: (batchUrls pdfId bucketUrl i).2 ::
            (dlLoop pdfId bucketUrl fetch fuel (i + 100)).1,
          (dlLoop pdfId bucketUrl fetch fuel (i + 100)).2.map
            (fun s => (fetch (batchUrls pdfId bucketUrl i).2).2 ++ s))
      else if (fetch (batchUrls pdfId bucketUrl i).1).1 = 200 then
        ((batchUrls pdfId bucketUrl i).1 :: (batchUrls pdfId bucketUrl i).2 ::
            (dlLoop pdfId bucketUrl fetch fuel (i + 100)).1,
          (dlLoop pdfId bucketUrl fetch fuel (i + 100)).2.map
            (fun s => (fetch (batchUrls pdfId bucketUrl i).1).2 ++ s))
      else ([(batchUrls pdfId bucketUrl i).1, (batchUrls pdfId bucketUrl i).2], some "")) := rfl

theorem dlLoop_suffixes (pdfId bucketUrl : String) (fetch : String → Nat × String) :
    ∀ (fuel i : Nat), i % 100 = 1 →
      ∀ u ∈ (dlLoop pdfId bucketUrl fetch fuel i).1,
        ∃ s ∈ tenSuffixes,
          u = (urlOfSuffix pdfId bucketUrl s).1 ∨ u = (urlOfSuffix pdfId bucketUrl s).2
  | 0, i, _, u, hu => by simp [dlLoop] at hu
  | fuel + 1, i, hi, u, hu => by
    rw [dlLoop_succ] at hu
    have hnext : (i + 100) % 100 = 1 := by omega
    have hcur : ∀ v, (v = (batchUrls pdfId bucketUrl i).1 ∨ v = (batchUrls pdfId bucketUrl i).2) →
        ∃ s ∈ tenSuffixes,
          v = (urlOfSuffix pdfId bucketUrl s).1 ∨ v = (urlOfSuffix pdfId bucketUrl s).2 := by
      intro v hv
      exact ⟨suffix3 i, suffix3_mem_ten i hi, by
        rw [batchUrls_eq_urlOfSuffix] at hv
        exact hv⟩
    by_cases hL : (fetch (batchUrls pdfId bucketUrl i).2).1 = 200
    · rw [if_pos hL] at hu
      rcases List.mem_cons.mp hu with heq | hu2
      · exact hcur u (Or.inl heq)
      rcases List.mem_cons.mp hu2 with heq | hu3
      · exact hcur u (Or.inr heq)
      · exact dlLoop_suffixes pdfId bucketUrl fetch fuel (i + 100) hnext u hu3
    · rw [if_neg hL] at hu
      by_cases hF : (fetch (batchUrls pdfId bucketUrl i).1).1 = 200
      · rw [if_pos hF] at hu
        rcases List.mem_cons.mp hu with heq | hu2
        · exact hcur u (Or.inl heq)
        rcases List.mem_cons.mp hu2 with heq | hu3
        · exact hcur u (Or.inr heq)
        · exact dlLoop_suffixes pdfId bucketUrl fetch fuel (i + 100) hnext u hu3
      · rw [if_neg hF] at hu
        rcases List.mem_cons.mp hu with heq | hu2
        · exact hcur u (Or.inl heq)
        · exact hcur u (Or.inr (List.mem_singleton.mp hu2))

theorem dlLoop_never_terminates (pdfId bucketUrl : String) (fetch : String → Nat × String)
    (hten : ∀ s ∈ tenSuffixes,
      (fetch (urlOfSuffix pdfId bucketUrl s).2).1 = 200 ∨
        (fetch (urlOfSuffix pdfId bucketUrl s).1).1 = 200) :
    ∀ (fuel i : Nat), i % 100 = 1 → (dlLoop pdfId bucketUrl fetch fuel i).2 = none
  | 0, i, _ => rfl
  | fuel + 1, i, hi => by
    rw [dlLoop_succ]
    have hnext : (i + 100) % 100 = 1 := by omega
    have hrec := dlLoop_never_terminates pdfId bucketUrl fetch hten fuel (i + 100) hnext
    have h200 := hten (suffix3 i) (suffix3_mem_ten i hi)
    rw [← batchUrls_eq_urlOfSuffix] at h200
    by_cases hL : (fetch (batchUrls pdfId bucketUrl i).2).1 = 200
    · rw [if_pos hL]
      simp [hrec]
    · rcases h200 with h200 | hF
      · exact absurd h200 hL
      · rw [if_neg hL, if_pos hF]
        simp [hrec]

/-- C9: the three-character suffix of the loop counter is periodic with
period 1000 (`suffix3 (i+1000) = suffix3 i`), so loop counter 1001
requests exactly the URLs of counter 1; every URL the download loop
requests carries one of the ten suffixes 001, 101, ..., 901; and when
files exist at all ten suffixes the loop never reaches its break, for
any amount of fuel. -/
theorem downloadLabels_suffix_periodicity (pdfId bucketUrl : String) :
    (∀ i : Nat, suffix3 (i + 1000) = suffix3 i) ∧
    (batchUrls pdfId bucketUrl 1001 = batchUrls pdfId bucketUrl 1) ∧
    (∀ (fetch : String → Nat × String) (fuel i : Nat), i % 100 = 1 →
      ∀ u ∈ (dlLoop pdfId bucketUrl fetch fuel i).1,
        ∃ s ∈ tenSuffixes,
          u = (urlOfSuffix pdfId bucketUrl s).1 ∨ u = (urlOfSuffix pdfId bucketUrl s).2) ∧
    (∀ fetch : String → Nat × String,
      (∀ s ∈ tenSuffixes,
        (fetch (urlOfSuffix pdfId bucketUrl s).2).1 = 200 ∨
          (fetch (urlOfSuffix pdfId bucketUrl s).1).1 = 200) →
      ∀ fuel : Nat, (dlLoop pdfId bucketUrl fetch fuel 1).2 = none) := by
  refine ⟨?_, ?_, ?_, ?_⟩
  · intro i
    rw [suffix3_eq_pad3, suffix3_eq_pad3, Nat.add_mod_right]
  · rw [batchUrls_eq_urlOfSuffix, batchUrls_eq_urlOfSuffix,
      (by decide : suffix3 1001 = suffix3 1)]
  · exact fun fetch fuel i hi u hu => dlLoop_suffixes pdfId bucketUrl fetch fuel i hi u hu
  · exact fun fetch hten fuel =>
      dlLoop_never_terminates pdfId bucketUrl fetch hten fuel 1 (by omega)

/-- Witness for C9: with every URL answering 200 the loop requests only
ten-suffix URLs and never terminates; evaluated at fuel 3. -/
theorem downloadLabels_suffix_periodicity_witness :
    (∀ i : Nat, suffix3 (i + 1000) = suffix3 i) ∧
    ((1 : Nat) % 100 = 1) ∧
    (∀ u ∈ (dlLoop "abcd" "B/" (fun _ => (200, "x")) 3 1).1,
      ∃ s ∈ tenSuffixes,
        u = (urlOfSuffix "abcd" "B/" s).1 ∨ u = (urlOfSuffix "abcd" "B/" s).2) ∧
    (∀ s ∈ tenSuffixes,
      ((fun (_ : String) => ((200 : Nat), "x")) (urlOfSuffix "abcd" "B/" s).2).1 = 200 ∨
        ((fun (_ : String) => ((200 : Nat), "x")) (urlOfSuffix "abcd" "B/" s).1).1 = 200) ∧
    ((dlLoop "abcd" "B/" (fun _ => (200, "x")) 3 1).2 = none) :=
  ⟨(downloadLabels_suffix_periodicity "abcd" "B/").1,
    by decide,
    fun u hu => (downloadLabels_suffix_periodicity "abcd" "B/").2.2.1
      (fun _ => (200, "x")) 3 1 (by decide) u hu,
    by decide,
    (downloadLabels_suffix_periodicity "abcd" "B/").2.2.2
      (fun _ => (200, "x")) (by decide) 3⟩

theorem dlLoop_complete (pdfId bucketUrl : String) (fetch : String → Nat × String) :
    ∀ (d j fuel : Nat),
      (∀ t, t < d → batchOkB pdfId bucketUrl fetch (j + t) = true) →
      batchOkB pdfId bucketUrl fetch (j + d) = false →
      d < fuel →
      dlLoop pdfId bucketUrl fetch fuel (1 + 100 * j) =
        (((List.range' j (d + 1)).map (fun t =>
            [(batchUrls pdfId bucketUrl (1 + 100 * t)).1,
             (batchUrls pdfId bucketUrl (1 + 100 * t)).2])).join,
          some (concatAll ((List.range' j d).map (batchBody pdfId bucketUrl fetch))))
  | 0, j, fuel, _, hmiss, hfuel => by
    obtain ⟨f, rfl⟩ : ∃ f, fuel = f + 1 := ⟨fuel - 1, by omega⟩
    rw [Nat.add_zero] at hmiss
    simp only [batchOkB, Bool.or_eq_false_iff, beq_eq_false_iff_ne] at hmiss
    rw [dlLoop_succ, if_neg hmiss.1, if_neg hmiss.2]
    simp [concatAll]
  | d + 1, j, fuel, hpres, hmiss, hfuel => by
    obtain ⟨f, rfl⟩ : ∃ f, fuel = f + 1 := ⟨fuel - 1, by omega⟩
    have hshift : 1 + 100 * j + 100 = 1 + 100 * (j + 1) := by ring
    have hrec := dlLoop_complete pdfId bucketUrl fetch d (j + 1) f
      (fun t ht => by
        have := hpres (t + 1) (by omega)
        rwa [show j + (t + 1) = j + 1 + t by omega] at this)
      (by rwa [show j + 1 + d = j + (d + 1) by omega])
      (by omega)
    have h0 := hpres 0 (by omega)
    rw [Nat.add_zero] at h0
    simp only [batchOkB, Bool.or_eq_true, beq_iff_eq] at h0
    have hrange : List.range' j (d + 1 + 1) = j :: List.range' (j + 1) (d + 1) :=
      List.range'_succ j (d + 1) 1
    have hrange2 : List.range' j (d + 1) = j :: List.range' (j + 1) d :=
      List.range'_succ j d 1
    by_cases hL : (fetch (batchUrls pdfId bucketUrl (1 + 100 * j)).2).1 = 200
    · rw [dlLoop_succ, if_pos hL, hshift, hrec]
      rw [hrange, hrange2, Prod.mk.injEq]
      exact ⟨rfl, by rw [List.map_cons, batchBody, if_pos hL]; rfl⟩
    · have hF : (fetch (batchUrls pdfId bucketUrl (1 + 100 * j)).1).1 = 200 := by
        rcases h0 with h | h
        · exact absurd h hL
        · exact h
      rw [dlLoop_succ, if_neg hL, if_pos hF, hshift, hrec]
      rw [hrange, hrange2, Prod.mk.injEq]
      exact ⟨rfl, by rw [List.map_cons, batchBody, if_neg hL]; rfl⟩

/-- C2: when `k` is the first batch ordinal at which neither the labels
nor the features file answers 200 (batch ordinal `j` has loop counter
`1 + 100 j`, i.e. indices 1, 101, 201, ...), the download loop requests
exactly the feature and label URLs of ordinals `0..k` in order — so it
never requests an index past the first missing one — and the loaded
text is the concatenation, in batch order, of the successful bodies
(labels body when present, else features body). -/
theorem downloadLabels_batch_loop_spec (pdfId bucketUrl : String)
    (fetch : String → Nat × String) (k fuel : Nat)
    (hpres : ∀ j, j < k → batchOkB pdfId bucketUrl fetch j = true)
    (hmiss : batchOkB pdfId bucketUrl fetch k = false)
    (hfuel : k < fuel) :
    dlLoop pdfId bucketUrl fetch fuel 1 =
      (((List.range' 0 (k + 1)).map (fun t =>
          [(batchUrls pdfId bucketUrl (1 + 100 * t)).1,
           (batchUrls pdfId bucketUrl (1 + 100 * t)).2])).join,
        some (concatAll ((List.range' 0 k).map (batchBody pdfId bucketUrl fetch)))) := by
  have := dlLoop_complete pdfId bucketUrl fetch k 0 fuel
    (fun t ht => by simpa using hpres t ht) (by simpa using hmiss) hfuel
  simpa using this

/-- The C2 example oracle: labels present at counters 1 and 101, absent
at 201 (and no features files at all). -/
def c2Fetch : String → Nat × String := fun u =>
  if u = "B/abcd-001-labels.csv" then (200, "x\n")
  else if u = "B/abcd-101-labels.csv" then (200, "y\n")
  else (404, "")

/-- Witness for C2: with batches present at {1, 101} and absent at 201
the loop requests exactly the six URLs of counters 1, 101, 201 and
loads the concatenation of the two present bodies. -/
theorem downloadLabels_batch_loop_spec_witness :
    ((∀ j, j < 2 → batchOkB "abcd" "B/" c2Fetch j = true) ∧
      batchOkB "abcd" "B/" c2Fetch 2 = false) ∧
    dlLoop "abcd" "B/" c2Fetch 5 1 =
      (((List.range' 0 3).map (fun t =>
          [(batchUrls "abcd" "B/" (1 + 100 * t)).1,
           (batchUrls "abcd" "B/" (1 + 100 * t)).2])).join,
        some (concatAll ((List.range' 0 2).map (batchBody "abcd" "B/" c2Fetch)))) ∧
    (dlLoop "abcd" "B/" c2Fetch 5 1).2 = some "x\ny\n" ∧
    (dlLoop "abcd" "B/" c2Fetch 5 1).1 =
      ["B/abcd-001-features.csv", "B/abcd-001-labels.csv",
       "B/abcd-101-features.csv", "B/abcd-101-labels.csv",
       "B/abcd-201-features.csv", "B/abcd-201-labels.csv"] :=
  ⟨⟨by decide, by decide⟩,
    downloadLabels_batch_loop_spec "abcd" "B/" c2Fetch 2 5 (by decide) (by decide) (by decide),
    by decide, by decide⟩

/-! ### Claim C3 -/

theorem pushLabel_ok (x : List String) (hx : 2 ≤ x.length) :
    pushLabel x = .ok (x ++ [synthLabel x]) := by
  rw [pushLabel]
  cases hq : x.get? 1 with
  | none =>
    rw [List.get?_eq_none] at hq
    omega
  | some v => rfl

theorem mapM_pushLabel (t : List (List String)) (hlen : ∀ row ∈ t, 2 ≤ row.length) :
    t.mapM pushLabel = .ok (t.map (fun x => x ++ [synthLabel x])) := by
  induction t with
  | nil => rfl
  | cons x rest ih =>
    rw [List.mapM_cons, pushLabel_ok x (hlen x (List.mem_cons_self _ _)),
      ih (fun z hz => hlen z (List.mem_cons_of_mem _ hz))]
    rfl

/-- C3: on a parsed row sequence whose rows all have a column index 1,
the reconciliation step appends exactly one column to every row when no
`label` column exists — the header row gets `label` appended and every
data row gets `"body"` exactly when its text field (column index 1)
exceeds 100 characters, else `"other"` — and leaves every row unchanged
when the header already contains `label`. -/
theorem reconcile_label_column_spec (h : List String) (t : List (List String))
    (hlen : ∀ row ∈ h :: t, 2 ≤ row.length) :
    ("label" ∉ h → reconcile (h :: t) =
      .ok ((h ++ ["label"]) :: t.map (fun x => x ++ [synthLabel x]))) ∧
    ("label" ∈ h → reconcile (h :: t) = .ok (h :: t)) := by
  constructor
  · intro hno
    have hc : h.contains "label" = false := by
      rw [← Bool.not_eq_true, List.elem_iff]
      exact hno
    rw [reconcile, hc]
    simp only [Bool.false_eq_true, if_false]
    rw [pushLabel_ok h (hlen h (List.mem_cons_self _ _)),
      mapM_pushLabel t (fun z hz => hlen z (List.mem_cons_of_mem _ hz))]
    show Except.ok (((h ++ [synthLabel h]).dropLast ++ ["label"]) ::
      List.map (fun x => x ++ [synthLabel x]) t) = _
    rw [List.dropLast_concat]
  · intro hyes
    have hc : h.contains "label" = true := List.elem_iff.mpr hyes
    rw [reconcile, hc]
    rw [if_pos rfl]

/-- A 101-character text. -/
def longText : String := String.mk (List.replicate 101 'a')

/-- Witness for C3: a header without `label` gets the column appended
and the two data rows get `"other"` (29 characters) and `"body"`
(101 characters); a header with `label` passes through unchanged. -/
theorem reconcile_label_column_spec_witness :
    ((∀ row ∈ [["id", "text"], ["d-1-1", "short"], ["d-1-2", longText]], 2 ≤ row.length) ∧
      "label" ∉ ["id", "text"]) ∧
    reconcile [["id", "text"], ["d-1-1", "short"], ["d-1-2", longText]] =
      .ok [["id", "text", "label"], ["d-1-1", "short", "other"], ["d-1-2", longText, "body"]] ∧
    ((∀ row ∈ [["id", "text", "label"], ["d-1-1", "x", "body"]], 2 ≤ row.length) ∧
      "label" ∈ ["id", "text", "label"]) ∧
    reconcile [["id", "text", "label"], ["d-1-1", "x", "body"]] =
      .ok [["id", "text", "label"], ["d-1-1", "x", "body"]] :=
  ⟨⟨by decide, by decide⟩,
    by
      have := (reconcile_label_column_spec ["id", "text"] [["d-1-1", "short"], ["d-1-2", longText]]
        (by decide)).1 (by decide)
      rw [this]
      rfl,
    ⟨by decide, by decide⟩,
    (reconcile_label_column_spec ["id", "text", "label"] [["d-1-1", "x", "body"]]
      (by decide)).2 (by decide)⟩

/-! ### Claim C4 -/

theorem getSheetByName_split (store : Store) (n : String) (old : Sheet)
    (hfind : getSheetByName store n = some old) :
    ∃ pre post, store = pre ++ old :: post ∧ (∀ sh ∈ pre, sh.name ≠ n) ∧ old.name = n ∧
      ∀ f, replaceFirst store n f = pre ++ f old :: post := by
  induction store with
  | nil => simp [getSheetByName] at hfind
  | cons sh rest ih =>
    by_cases h : sh.name = n
    · have hsh : old = sh := by
        rw [getSheetByName, List.find?_cons_of_pos _ (by simpa using h)] at hfind
        exact (Option.some_injective _ hfind).symm
      subst hsh
      exact ⟨[], rest, by simp, by simp, h,
        fun f => by rw [replaceFirst, if_pos h]; rfl⟩
    · rw [getSheetByName, List.find?_cons_of_neg _ (by simpa using h)] at hfind
      obtain ⟨pre, post, he, hpre, hname, hrep⟩ := ih hfind
      refine ⟨sh :: pre, post, by rw [List.cons_append, ← he], ?_, hname, ?_⟩
      · intro z hz
        rcases List.mem_cons.mp hz with rfl | hz2
        · exact h
        · exact hpre z hz2
      · intro f
        rw [replaceFirst, if_neg h, hrep f]
        rfl

theorem archName_ne (pdfId ts : String) : pdfId ++ ".old." ++ ts ≠ pdfId := by
  intro hcontra
  have := congrArg String.length hcontra
  rw [String.length_append, String.length_append] at this
  have h5 : (".old." : String).length = 5 := rfl
  omega

theorem downloadLabelsGs_eq (pdfId bucketUrl : String) (fetch : String → Nat × String)
    (fuel : Nat) (ts : String) (store : Store) (csv : String) (d : List (List String))
    (hloop : (dlLoop pdfId bucketUrl fetch fuel 1).2 = some csv)
    (hrec : reconcile (parseCsv csv) = .ok d)
    (hrect : rectB d = true)
    (hold : (getSheetByName store pdfId).isSome) :
    downloadLabelsGs pdfId bucketUrl fetch fuel ts store =
      .ok (replaceFirst store pdfId (fun sh => { sh with name := sh.name ++ ".old." ++ ts }) ++
        [⟨pdfId, d.map (fun row => row.map cellOfCsv), []⟩]) := by
  obtain ⟨old, holdeq⟩ := Option.isSome_iff_exists.mp hold
  simp only [downloadLabelsGs, hloop, hrec, holdeq, hrect, if_true]

/-- C4: when a sheet named `<id>` exists, a successful `downloadLabels`
leaves exactly one sheet named `<id>` — the newly created one, filled
with the reconciled rows from row 1, column 1 — while the previous
sheet survives under the archival name `<id>.old.<timestamp>` with its
cells intact; the store grows by one and every sheet's cells are still
present: nothing is deleted. -/
theorem downloadLabels_sheet_sync_archival (pdfId bucketUrl : String)
    (fetch : String → Nat × String) (fuel : Nat) (ts : String) (store : Store)
    (old : Sheet) (csv : String) (d : List (List String))
    (hnd : (store.map Sheet.name).Nodup)
    (hold : getSheetByName store pdfId = some old)
    (hloop : (dlLoop pdfId bucketUrl fetch fuel 1).2 = some csv)
    (hrec : reconcile (parseCsv csv) = .ok d)
    (hrect : rectB d = true) :
    ∃ store', downloadLabelsGs pdfId bucketUrl fetch fuel ts store = .ok store' ∧
      store'.countP (fun sh => sh.name == pdfId) = 1 ∧
      getSheetByName store' pdfId =
        some ⟨pdfId, d.map (fun row => row.map cellOfCsv), []⟩ ∧
      (∃ sh' ∈ store', sh'.name = pdfId ++ ".old." ++ ts ∧ sh'.cells = old.cells) ∧
      store'.length = store.length + 1 ∧
      (∀ sh ∈ store, ∃ sh' ∈ store', sh'.cells = sh.cells) := by
  obtain ⟨pre, post, he, hpre, hname, hrep⟩ := getSheetByName_split store pdfId old hold
  set rn : Sheet → Sheet := fun sh => { sh with name := sh.name ++ ".old." ++ ts } with hrn
  set newSheet : Sheet := ⟨pdfId, d.map (fun row => row.map cellOfCsv), []⟩ with hnew
  have heq := downloadLabelsGs_eq pdfId bucketUrl fetch fuel ts store csv d hloop hrec hrect
    (by rw [hold]; rfl)
  rw [hrep rn] at heq
  have hpost : ∀ sh ∈ post, sh.name ≠ pdfId := by
    rw [he, List.map_append, List.map_cons] at hnd
    have h1 := (List.nodup_append.mp hnd).2.1
    have h2 := (List.nodup_cons.mp h1).1
    intro sh hsh hcontra
    apply h2
    rw [hname, ← hcontra]
    exact List.mem_map_of_mem Sheet.name hsh
  have harch : (rn old).name ≠ pdfId := by
    rw [hrn]
    show old.name ++ ".old." ++ ts ≠ pdfId
    rw [hname]
    exact archName_ne pdfId ts
  refine ⟨pre ++ rn old :: post ++ [newSheet], by rw [heq], ?_, ?_, ?_, ?_, ?_⟩
  · have hc1 : List.countP (fun sh => sh.name == pdfId) pre = 0 :=
      List.countP_eq_zero.mpr (fun a ha => by simpa using hpre a ha)
    have hc2 : List.countP (fun sh => sh.name == pdfId) post = 0 :=
      List.countP_eq_zero.mpr (fun a ha => by simpa using hpost a ha)
    have hc3 : ((rn old).name == pdfId) = false := by simpa using harch
    simp only [List.countP_append, List.countP_cons, hc1, hc2, hc3]
    simp
  · have hfpre : List.find? (fun sh => decide (sh.name = pdfId)) pre = none :=
      List.find?_eq_none.mpr (fun x hx => by simpa using hpre x hx)
    have hfpost : List.find? (fun sh => decide (sh.name = pdfId)) post = none :=
      List.find?_eq_none.mpr (fun x hx => by simpa using hpost x hx)
    have harch2 : ¬ ((fun sh : Sheet => decide (sh.name = pdfId)) (rn old) = true) := by
      simp only [decide_eq_true_eq]
      exact harch
    have hfnew : (fun sh : Sheet => decide (sh.name = pdfId)) newSheet = true := by
      rw [hnew]
      simp
    rw [getSheetByName, List.find?_append, List.find?_append, hfpre,
      @List.find?_cons_of_neg _ (fun sh : Sheet => decide (sh.name = pdfId)) (rn old) post harch2,
      hfpost,
      @List.find?_cons_of_pos _ (fun sh : Sheet => decide (sh.name = pdfId)) newSheet [] hfnew]
    rfl
  · refine ⟨rn old, by simp, ?_, rfl⟩
    show old.name ++ ".old." ++ ts = pdfId ++ ".old." ++ ts
    rw [hname]
  · simp only [he, List.length_append, List.length_cons, List.length_nil]
  · intro sh hsh
    rw [he] at hsh
    rcases List.mem_append.mp hsh with h1 | h2
    · exact ⟨sh, by simp [h1], rfl⟩
    rcases List.mem_cons.mp h2 with rfl | h3
    · exact ⟨rn sh, by simp, rfl⟩
    · exact ⟨sh, by simp [h3], rfl⟩

/-- The C4/C10 example oracle: one labels batch at counter 1. -/
def c4Fetch : String → Nat × String := fun u =>
  if u = "B/abcd-001-labels.csv" then (200, "id,text\nabcd-1-1,hello\n") else (404, "")

/-- The pre-existing sheet named `abcd` in the C4 example. -/
def c4Old : Sheet := ⟨"abcd", [[Val.s "old"]], []⟩

/-- Witness for C4: with a sheet named `abcd` already present, the run
succeeds, exactly one sheet is named `abcd` (the new one, holding the
reconciled rows), the old sheet survives as `abcd.old.TS`, and the
store grew from one sheet to two. -/
theorem downloadLabels_sheet_sync_archival_witness :
    (((([c4Old] : Store).map Sheet.name).Nodup) ∧
      getSheetByName [c4Old] "abcd" = some c4Old ∧
      (dlLoop "abcd" "B/" c4Fetch 5 1).2 = some "id,text\nabcd-1-1,hello\n" ∧
      reconcile (parseCsv "id,text\nabcd-1-1,hello\n") =
        .ok [["id", "text", "label"], ["abcd-1-1", "hello", "other"]]) ∧
    (∃ store', downloadLabelsGs "abcd" "B/" c4Fetch 5 "TS" [c4Old] = .ok store' ∧
      store'.countP (fun sh => sh.name == "abcd") = 1 ∧
      getSheetByName store' "abcd" =
        some ⟨"abcd", [["id", "text", "label"], ["abcd-1-1", "hello", "other"]].map
          (fun row => row.map cellOfCsv), []⟩ ∧
      (∃ sh' ∈ store', sh'.name = "abcd" ++ ".old." ++ "TS" ∧ sh'.cells = c4Old.cells) ∧
      store'.length = ([c4Old] : Store).length + 1 ∧
      (∀ sh ∈ ([c4Old] : Store), ∃ sh' ∈ store', sh'.cells = sh.cells)) ∧
    downloadLabelsGs "abcd" "B/" c4Fetch 5 "TS" [c4Old] =
      .ok [⟨"abcd.old.TS", [[Val.s "old"]], []⟩,
        ⟨"abcd", [[Val.s "id", Val.s "text", Val.s "label"],
          [Val.s "abcd-1-1", Val.s "hello", Val.s "other"]], []⟩] :=
  ⟨⟨by decide, by decide, by decide, by decide⟩,
    downloadLabels_sheet_sync_archival "abcd" "B/" c4Fetch 5 "TS" [c4Old] c4Old
      "id,text\nabcd-1-1,hello\n" [["id", "text", "label"], ["abcd-1-1", "hello", "other"]]
      (by decide) (by decide) (by decide) (by decide) (by decide),
    by rfl⟩

/-! ### Claim C10 -/

theorem foldr_max_const (l : List Nat) (c : Nat) (hne : l ≠ [])
    (h : ∀ x ∈ l, x = c) : l.foldr max 0 = c := by
  induction l with
  | nil => exact absurd rfl hne
  | cons y t ih =>
    rw [List.foldr_cons]
    by_cases ht : t = []
    · subst ht
      rw [h y (List.mem_cons_self _ _)]
      simp
    · rw [ih ht (fun z hz => h z (List.mem_cons_of_mem _ hz)), h y (List.mem_cons_self _ _)]
      simp

theorem padRow_self (row : List Val) : padRow row.length row = row := by
  simp [padRow]

theorem reconcile_ok_header (labelData d : List (List String))
    (h : reconcile labelData = .ok d) :
    ∃ hd tl, d = hd :: tl ∧ "label" ∈ hd := by
  cases labelData with
  | nil => simp [reconcile] at h
  | cons h0 t0 =>
    rw [reconcile] at h
    by_cases hc : h0.contains "label"
    · rw [if_pos hc] at h
      refine ⟨h0, t0, ?_, List.elem_iff.mp hc⟩
      cases h
      rfl
    · rw [if_neg hc] at h
      cases hp : pushLabel h0 with
      | error e =>
        rw [hp] at h
        simp at h
      | ok h' =>
        cases hm : t0.mapM pushLabel with
        | error e =>
          rw [hp, hm] at h
          simp at h
        | ok t' =>
          rw [hp, hm] at h
          refine ⟨h'.dropLast ++ ["label"], t', ?_, by simp⟩
          cases h
          rfl

theorem jsIndexOfVal_nonneg_of_mem (l : List Val) (v : Val) (h : v ∈ l) :
    0 ≤ jsIndexOfVal l v := by
  induction l with
  | nil => simp at h
  | cons x xs ih =>
    rw [jsIndexOfVal]
    by_cases hx : x = v
    · rw [if_pos hx]
    · rw [if_neg hx]
      have h2 : v ∈ xs := by
        rcases List.mem_cons.mp h with h3 | h4
        · exact absurd h3.symm hx
        · exact h4
      have h5 := ih h2
      rw [if_neg (by omega)]
      omega

theorem downloadLabelsGs_ok_inv (pdfId bucketUrl : String) (fetch : String → Nat × String)
    (fuel : Nat) (ts : String) (store store' : Store)
    (h : downloadLabelsGs pdfId bucketUrl fetch fuel ts store = .ok store') :
    ∃ csv d, (dlLoop pdfId bucketUrl fetch fuel 1).2 = some csv ∧
      reconcile (parseCsv csv) = .ok d ∧ rectB d = true ∧
      ∃ pre, store' = pre ++ [⟨pdfId, d.map (fun row => row.map cellOfCsv), []⟩] := by
  rw [downloadLabelsGs] at h
  cases hl : (dlLoop pdfId bucketUrl fetch fuel 1).2 with
  | none =>
    simp only [hl] at h
    simp at h
  | some csv =>
    simp only [hl] at h
    cases hr : reconcile (parseCsv csv) with
    | error e =>
      simp only [hr] at h
      simp at h
    | ok d =>
      simp only [hr] at h
      by_cases hx : rectB d = true
      · rw [if_pos hx] at h
        cases h
        exact ⟨csv, d, rfl, hr, hx, _, rfl⟩
      · rw [if_neg hx] at h
        simp at h

/-- C10: every sheet created by a successfully completed
`downloadLabels` (the sheet appended last, named after the document id)
has a header row containing a `label` cell, so the label-column lookup
`updateLabel` performs — `indexOf` of `label` in the header, plus 1 —
yields a positive column index on it. -/
theorem downloadLabels_creates_label_column (pdfId bucketUrl : String)
    (fetch : String → Nat × String) (fuel : Nat) (ts : String) (store store' : Store)
    (h : downloadLabelsGs pdfId bucketUrl fetch fuel ts store = .ok store') :
    ∃ pre sh, store' = pre ++ [sh] ∧ sh.name = pdfId ∧
      Val.s "label" ∈ headerListOf sh ∧
      0 < jsIndexOfVal (headerListOf sh) (Val.s "label") + 1 := by
  obtain ⟨csv, d, hloop, hrec, hrect, pre, hsplit⟩ :=
    downloadLabelsGs_ok_inv pdfId bucketUrl fetch fuel ts store store' h
  obtain ⟨hd, tl, hde, hmem⟩ := reconcile_ok_header _ _ hrec
  set sh : Sheet := ⟨pdfId, d.map (fun row => row.map cellOfCsv), []⟩ with hshdef
  have hrect' : ∀ row ∈ d, row.length = hd.length := by
    intro row hrow
    have h1 := List.all_eq_true.mp hrect row hrow
    have h2 : row.length = (d.headD []).length := by simpa using h1
    rw [hde] at h2
    exact h2
  have hw : sheetWidth sh = hd.length := by
    rw [sheetWidth]
    apply foldr_max_const
    · rw [hshdef, hde]
      simp
    · intro x hx
      rcases List.mem_map.mp hx with ⟨row, hrowm, hxe⟩
      rcases List.mem_map.mp hrowm with ⟨row0, hrow0, hrowe⟩
      rw [← hxe, ← hrowe, List.length_map]
      exact hrect' row0 hrow0
  have hheadD : sh.cells.headD [] = hd.map cellOfCsv := by
    rw [hshdef, hde]
    rfl
  have hhead : headerListOf sh = hd.map cellOfCsv := by
    rw [headerListOf, hw, hheadD, ← List.length_map hd cellOfCsv]
    exact padRow_self _
  have hlabmem : Val.s "label" ∈ headerListOf sh := by
    rw [hhead]
    exact List.mem_map.mpr ⟨"label", hmem, rfl⟩
  have hnn := jsIndexOfVal_nonneg_of_mem _ _ hlabmem
  exact ⟨pre, sh, hsplit, rfl, hlabmem, by omega⟩

/-- Witness for C10: the concrete run of `downloadLabels` that created
a sheet from one labels batch; its header carries `label` and the
label-column index is 3. -/
theorem downloadLabels_creates_label_column_witness :
    (downloadLabelsGs "abcd" "B/" c4Fetch 5 "TS" [] =
      .ok [⟨"abcd", [[Val.s "id", Val.s "text", Val.s "label"],
        [Val.s "abcd-1-1", Val.s "hello", Val.s "other"]], []⟩]) ∧
    (∃ pre sh,
      ([⟨"abcd", [[Val.s "id", Val.s "text", Val.s "label"],
        [Val.s "abcd-1-1", Val.s "hello", Val.s "other"]], []⟩] : Store) = pre ++ [sh] ∧
      sh.name = "abcd" ∧ Val.s "label" ∈ headerListOf sh ∧
      0 < jsIndexOfVal (headerListOf sh) (Val.s "label") + 1) ∧
    jsIndexOfVal (headerListOf ⟨"abcd", [[Val.s "id", Val.s "text", Val.s "label"],
      [Val.s "abcd-1-1", Val.s "hello", Val.s "other"]], []⟩) (Val.s "label") + 1 = 3 :=
  ⟨by decide,
    downloadLabels_creates_label_column "abcd" "B/" c4Fetch 5 "TS" []
      [⟨"abcd", [[Val.s "id", Val.s "text", Val.s "label"],
        [Val.s "abcd-1-1", Val.s "hello", Val.s "other"]], []⟩] (by decide),
    by decide⟩

/-! ### Claim C5 -/

/-- C5 counterexample: asked to set the label of id `a-1-1`, the text
finder's default partial matching hits the `a-1-10` cell of row 2
first, so `updateLabel` overwrites row 2's label cell; row 3 — the
unique row whose id cell exactly matches `a-1-1` — keeps its old label
`y`.  The claim that the updated row is the exactly-matching one is
false. -/
theorem updateLabel_exact_match_counterexample :
    updateLabel "abcd" [c5Sheet] "a-1-1" "body" =
      .ok [⟨"abcd",
        [[Val.s "id", Val.s "text", Val.s "label"],
         [Val.s "a-1-10", Val.s "t", Val.s "body"],
         [Val.s "a-1-1", Val.s "u", Val.s "y"]],
        [(2, 3, "wheat")]⟩] ∧
    (c5Sheet.cells.getD 2 []).getD 0 (Val.s "") = Val.s "a-1-1" ∧
    findCell c5Sheet "a-1-1" = some (2, 1) := by
  refine ⟨by decide, by decide, by decide⟩

theorem findCellAux_bounds (q : String) :
    ∀ (i : Nat) (cells : List (List Val)) (r c : Nat),
      findCellAux q i cells = some (r, c) → i ≤ r ∧ r < i + cells.length
  | i, [], r, c, h => by simp [findCellAux] at h
  | i, row :: rest, r, c, h => by
    rw [findCellAux] at h
    cases hr : rowHit q row with
    | some c0 =>
      rw [hr] at h
      cases h
      simp
    | none =>
      rw [hr] at h
      have := findCellAux_bounds q (i + 1) rest r c h
      rw [List.length_cons]
      omega

theorem jsIndexOfVal_lt (l : List Val) (v : Val) (j : Nat)
    (h : jsIndexOfVal l v = (j : Int)) : j < l.length := by
  induction l generalizing j with
  | nil =>
    rw [jsIndexOfVal] at h
    omega
  | cons x xs ih =>
    rw [jsIndexOfVal] at h
    by_cases hx : x = v
    · rw [if_pos hx] at h
      rw [List.length_cons]
      omega
    · rw [if_neg hx] at h
      by_cases hneg : jsIndexOfVal xs v < 0
      · rw [if_pos hneg] at h
        omega
      · rw [if_neg hneg] at h
        have hj : 1 ≤ j := by omega
        have h2 : jsIndexOfVal xs v = ((j - 1 : Nat) : Int) := by omega
        have := ih (j - 1) h2
        rw [List.length_cons]
        omega

theorem headerListOf_length (sh : Sheet) (h : sh.cells ≠ []) :
    (headerListOf sh).length = sheetWidth sh := by
  rw [headerListOf]
  exact padRow_length _ _ (head_length_le_width sh h)

theorem getD_set_self {α : Type} (l : List α) (i : Nat) (v d : α) (h : i < l.length) :
    (l.set i v).getD i d = v := by
  rw [List.getD, List.get?_eq_getElem?, List.getElem?_set_self h]
  rfl

theorem getD_set_ne {α : Type} (l : List α) (i k : Nat) (v d : α) (h : i ≠ k) :
    (l.set i v).getD k d = l.getD k d := by
  rw [List.getD, List.getD, List.get?_eq_getElem?, List.get?_eq_getElem?,
    List.getElem?_set_ne h]

/-- C5 (amended): `createTextFinder` performs partial matching by
default, so `updateLabel` locates the first cell — rows top to bottom,
cells left to right — whose text contains the given id as a substring
(not necessarily the row whose id cell exactly matches), takes that
cell's row, overwrites that row's label-column cell with the new label,
marks that cell's background `wheat`, and changes no other cell
value. -/
theorem updateLabel_substring_first_match (pdfId : String) (store : Store) (sh : Sheet)
    (id lbl : String) (r c : Nat) (j : Nat)
    (hsh : getSheetByName store pdfId = some sh)
    (hfind : findCell sh id = some (r, c))
    (hj : jsIndexOfVal (headerListOf sh) (Val.s "label") = (j : Int))
    (hrect : ∀ row ∈ sh.cells, row.length = sheetWidth sh) :
    ∃ sh', updateLabel pdfId store id lbl =
        .ok (replaceFirst store pdfId (fun _ => sh')) ∧
      sh'.name = sh.name ∧
      cellAt sh' r (j + 1) = Val.s lbl ∧
      (∀ r' c', 1 ≤ r' → 1 ≤ c' → (r' ≠ r ∨ c' ≠ j + 1) →
        cellAt sh' r' c' = cellAt sh r' c') ∧
      sh'.bgs = sh.bgs ++ [(r, j + 1, "wheat")] := by
  have hrb := findCellAux_bounds id 1 sh.cells r c hfind
  have hcne : sh.cells ≠ [] := by
    intro h0
    rw [h0] at hrb
    simp at hrb
    omega
  have hjw : j < sheetWidth sh := by
    have := jsIndexOfVal_lt _ _ _ hj
    rwa [headerListOf_length sh hcne] at this
  have htn : (jsIndexOfVal (headerListOf sh) (Val.s "label") + 1).toNat = j + 1 := by
    rw [hj]
    omega
  have hcond : ¬ (jsIndexOfVal (headerListOf sh) (Val.s "label") + 1 ≤ 0) := by
    rw [hj]
    omega
  set sh' : Sheet :=
    (⟨sh.name, setCell sh.cells r (j + 1) (Val.s lbl),
      sh.bgs ++ [(r, j + 1, "wheat")]⟩ : Sheet) with hsh'
  have hrowlen : (sh.cells.getD (r - 1) []).length = sheetWidth sh := by
    have hlt : r - 1 < sh.cells.length := by omega
    have hmem : sh.cells.getD (r - 1) [] ∈ sh.cells := by
      rw [List.getD_eq_getElem sh.cells [] hlt]
      exact List.getElem_mem hlt
    exact hrect _ hmem
  refine ⟨sh', ?_, rfl, ?_, ?_, rfl⟩
  · simp only [updateLabel, hsh, hfind]
    rw [if_neg hcond]
    congr 1
    obtain ⟨pre, post, he, hpre, hname, hrep⟩ := getSheetByName_split store pdfId sh hsh
    rw [hrep, hrep]
    congr 1
    rw [hsh', htn]
  · rw [hsh']
    show ((setCell sh.cells r (j + 1) (Val.s lbl)).getD (r - 1) []).getD (j + 1 - 1) (Val.s "")
      = Val.s lbl
    rw [setCell]
    have h1 : r - 1 < sh.cells.length := by omega
    have h2 : j < (sh.cells.getD (r - 1) []).length := by
      rw [hrowlen]
      exact hjw
    rw [getD_set_self sh.cells (r - 1) _ [] h1]
    exact getD_set_self _ (j + 1 - 1) (Val.s lbl) (Val.s "") (by simpa using h2)
  · intro r' c' hr1 hc1 hne
    rw [hsh']
    show ((setCell sh.cells r (j + 1) (Val.s lbl)).getD (r' - 1) []).getD (c' - 1) (Val.s "")
      = (sh.cells.getD (r' - 1) []).getD (c' - 1) (Val.s "")
    rw [setCell]
    by_cases hrr : r' = r
    · subst hrr
      rcases hne with hner | hnec
      · exact absurd rfl hner
      · have h1 : r' - 1 < sh.cells.length := by omega
        rw [getD_set_self sh.cells (r' - 1) _ [] h1]
        exact getD_set_ne _ (j + 1 - 1) (c' - 1) _ _ (by omega)
    · have hne2 : r - 1 ≠ r' - 1 := by omega
      rw [getD_set_ne sh.cells (r - 1) (r' - 1) _ [] hne2]

/-- Witness for the amended C5: on the example sheet the first
substring match for `a-1-1` is row 2 column 1 (the `a-1-10` cell), row
2's label cell becomes `body` and background `wheat`, and every other
cell is unchanged. -/
theorem updateLabel_substring_first_match_witness :
    ((getSheetByName [c5Sheet] "abcd" = some c5Sheet) ∧
      findCell c5Sheet "a-1-1" = some (2, 1) ∧
      jsIndexOfVal (headerListOf c5Sheet) (Val.s "label") = (2 : Int) ∧
      (∀ row ∈ c5Sheet.cells, row.length = sheetWidth c5Sheet)) ∧
    (∃ sh', updateLabel "abcd" [c5Sheet] "a-1-1" "body" =
        .ok (replaceFirst [c5Sheet] "abcd" (fun _ => sh')) ∧
      sh'.name = c5Sheet.name ∧
      cellAt sh' 2 3 = Val.s "body" ∧
      (∀ r' c', 1 ≤ r' → 1 ≤ c' → (r' ≠ 2 ∨ c' ≠ 3) →
        cellAt sh' r' c' = cellAt c5Sheet r' c') ∧
      sh'.bgs = c5Sheet.bgs ++ [(2, 3, "wheat")]) :=
  ⟨⟨by decide, by decide, by decide, by decide⟩,
    updateLabel_substring_first_match "abcd" [c5Sheet] c5Sheet "a-1-1" "body" 2 1 2
      (by decide) (by decide) (by decide) (by decide)⟩

/-! ### Claim C6 -/

/-- C6 counterexample: with no batch file present at all, the very
first batch fails, the loader yields the empty row sequence — and the
downstream steps of `downloadLabels` do NOT handle it: the call raises
a TypeError instead of completing, contradicting the claim. -/
theorem downloadLabels_empty_first_batch_errors :
    downloadLabelsGs "abcd" "B/" c6Fetch 5 "TS" [] =
      .error "TypeError: Cannot read properties of undefined (reading includes)" := by
  rfl

/-- C6 (amended): when the very first batch is missing the loop stops
with the empty text and the CSV loader yields an empty row sequence,
but the downstream steps do not handle it: the label-reconciliation
step reads the header of the empty row sequence and raises a TypeError,
so the whole `downloadLabels` call fails instead of completing. -/
theorem downloadLabels_empty_first_batch_spec (pdfId bucketUrl : String)
    (fetch : String → Nat × String) (fuel : Nat) (ts : String) (store : Store)
    (hmiss : batchOkB pdfId bucketUrl fetch 0 = false) (hfuel : 0 < fuel) :
    (dlLoop pdfId bucketUrl fetch fuel 1).2 = some "" ∧
    parseCsv "" = [] ∧
    downloadLabelsGs pdfId bucketUrl fetch fuel ts store =
      .error "TypeError: Cannot read properties of undefined (reading includes)" := by
  have hloop := dlLoop_complete pdfId bucketUrl fetch 0 0 fuel
    (fun t ht => absurd ht (by omega)) (by simpa using hmiss) hfuel
  rw [show 1 + 100 * 0 = 1 from by norm_num] at hloop
  have h2 : (dlLoop pdfId bucketUrl fetch fuel 1).2 = some "" := by
    rw [hloop]
    rfl
  refine ⟨h2, rfl, ?_⟩
  rw [downloadLabelsGs]
  simp only [h2]
  rfl

/-- Witness for the amended C6 at the all-absent oracle. -/
theorem downloadLabels_empty_first_batch_spec_witness :
    (batchOkB "abcd" "B/" c6Fetch 0 = false ∧ (0 : Nat) < 5) ∧
    ((dlLoop "abcd" "B/" c6Fetch 5 1).2 = some "" ∧
      parseCsv "" = [] ∧
      downloadLabelsGs "abcd" "B/" c6Fetch 5 "TS" [] =
        .error "TypeError: Cannot read properties of undefined (reading includes)") :=
  ⟨⟨by decide, by decide⟩,
    downloadLabels_empty_first_batch_spec "abcd" "B/" c6Fetch 5 "TS" []
      (by decide) (by decide)⟩

/-! ### Claim C8 -/

/-- C8: requesting the paragraph dictionary when no sheet exists for
the document id returns the null sentinel — which differs from a
JSON-encoded empty mapping — and when the sheet exists (and the build
succeeds) it returns the JSON encoding of the built dictionary. -/
theorem getParaDict_unavailable_sentinel (pdfId : String) (store : Store) :
    (getSheetByName store pdfId = none →
      getParaDict pdfId store = .ok none ∧
        (Except.ok (none : Option String) : Except String (Option String)) ≠
          Except.ok (some (jsStringify []))) ∧
    (∀ sh d pc qc, getSheetByName store pdfId = some sh →
      buildParaDictFromSheet pdfId store = .ok (d, pc, qc) →
      getParaDict pdfId store = .ok (some (jsStringify d))) := by
  constructor
  · intro h
    constructor
    · simp only [getParaDict, h]
    · simp
  · intro sh d pc qc hsh hb
    simp only [getParaDict, hsh, hb]
    rfl

/-- Witness for C8: with no sheet named `none` the call returns the
null sentinel, and with the sheet present it returns the JSON text of
the built dictionary. -/
theorem getParaDict_unavailable_sentinel_witness :
    (getSheetByName [c8Sheet] "none" = none ∧
      getParaDict "none" [c8Sheet] = .ok none) ∧
    (getSheetByName [c8Sheet] "abcd" = some c8Sheet ∧
      buildParaDictFromSheet "abcd" [c8Sheet] =
        .ok ([("3", [[("id", Val.s "doc-3-1"), ("area", Val.n 7)]])], 1, 1) ∧
      getParaDict "abcd" [c8Sheet] =
        .ok (some (jsStringify [("3", [[("id", Val.s "doc-3-1"), ("area", Val.n 7)]])]))) :=
  ⟨⟨by decide, ((getParaDict_unavailable_sentinel "none" [c8Sheet]).1 (by decide)).1⟩,
    ⟨by decide, by rfl,
      (getParaDict_unavailable_sentinel "abcd" [c8Sheet]).2 c8Sheet
        [("3", [[("id", Val.s "doc-3-1"), ("area", Val.n 7)]])] 1 1 (by decide) (by rfl)⟩⟩

end P2A
